import Mathlib

/-!
Verification of the framed ring-buffer HCI transport of this repository.

Two C variants implement the same design:
  * `src/lib/platform/bk/armino/src/bk_zig_ble_helper.c` (BK7258, 32 KiB ring,
    `uint32_t` cursors, big-endian length prefix, mutex + counting semaphore);
  * `src/lib/platform/esp/idf/src/bt/bt_helper.c` (ESP32, 4 KiB ring,
    `uint16_t` cursors, little-endian length prefix, spinlock + binary
    semaphore).

The byte-wise copy loops (write, read, peek) are structurally identical in
the two sources, so they are embedded once, parametric in the capacity `N`;
each variant then instantiates them and adds its own occupancy arithmetic,
framing and entry points, translated line by line from its C source.
Machine-integer arithmetic (`uint32_t`, `uint16_t`, C `int` promotion) is
made explicit with `% 2^32`, `% 65536` and `Int.tmod` wherever the C
expression can wrap or change sign.  Locks are not modelled (all the claims
below are sequential properties of the locked regions); the semaphore
interactions are surfaced as explicit booleans / oracle parameters.
-/

namespace RingTransport

/-- Ring-buffer state shared by both variants: the backing byte array
(`buf i` is the byte stored at index `i`; the C arrays are `uint8_t[N]` and
only indices `< N` are ever touched), the write cursor `head` and the read
cursor `tail`. -/
structure RingState where
  buf : Nat → Nat
  head : Nat
  tail : Nat

/-- Occupancy in the sense of the design: `(head - tail + N) mod N`. -/
def usedAbs (N : Nat) (s : RingState) : Nat :=
  (s.head + N - s.tail) % N

/-- One iteration of the byte-wise write loop of both sources:
`buf[head] = data[i]; head = (head + 1) % N`.  The array cell is a
`uint8_t`, hence the `% 256` on store. -/
def writeOne (N : Nat) (b : Nat) (s : RingState) : RingState where
  buf := fun j => if j = s.head then b % 256 else s.buf j
  head := (s.head + 1) % N
  tail := s.tail

/-- Byte-wise write loop, common to `ring_write_unlocked` (BK) and the body
of `ring_write` (ESP). -/
def writeLoop (N : Nat) : List Nat → RingState → RingState
  | [], s => s
  | b :: bs, s => writeLoop N bs (writeOne N b s)

/-- Byte-wise read loop, common to `ring_read_unlocked` (BK, after its
`min` clamp) and `ring_read` (ESP): `out[i] = buf[tail];
tail = (tail + 1) % N`.  Returns the bytes copied out and the new state. -/
def readLoop (N : Nat) : Nat → RingState → List Nat × RingState
  | 0, s => ([], s)
  | k + 1, s =>
      let r := readLoop N k { s with tail := (s.tail + 1) % N }
      (s.buf s.tail :: r.1, r.2)

/-- ESP `ring_peek`: reads `len` bytes from a local cursor starting at
`tail`, leaving the state untouched. -/
def peekLoop (N : Nat) : Nat → Nat → (Nat → Nat) → List Nat
  | 0, _, _ => []
  | k + 1, pos, buf => buf pos :: peekLoop N k ((pos + 1) % N) buf

/-- The `k` bytes of `buf` at positions `pos, pos+1, …` reduced modulo `N`
(specification-side view of a ring segment). -/
def bytesFrom (N : Nat) (buf : Nat → Nat) : Nat → Nat → List Nat
  | _, 0 => []
  | pos, k + 1 => buf (pos % N) :: bytesFrom N buf (pos + 1) k

/-- Queue abstraction of a ring: the occupied bytes, oldest first. -/
def contents (N : Nat) (s : RingState) : List Nat :=
  bytesFrom N s.buf s.tail (usedAbs N s)

theorem usedAbs_lt (N : Nat) (s : RingState) (h : 0 < N) : usedAbs N s < N :=
  Nat.mod_lt _ h

/-- Resolve `x % N` for `x < 2N` into a subtraction, turning modular goals
into linear arithmetic. -/
theorem mod_resolve (x N : Nat) (h : x < 2 * N) :
    x % N = if N ≤ x then x - N else x := by
  split
  · next hle =>
    rw [Nat.mod_eq_sub_mod hle, Nat.mod_eq_of_lt (by omega)]
  · next hlt =>
    exact Nat.mod_eq_of_lt (by omega)

theorem bytesFrom_length (N : Nat) (buf : Nat → Nat) (pos k : Nat) :
    (bytesFrom N buf pos k).length = k := by
  induction k generalizing pos with
  | zero => rfl
  | succ k ih => simp [bytesFrom, ih]

theorem bytesFrom_congr_pos (N : Nat) (buf : Nat → Nat) (k : Nat)
    {p q : Nat} (h : p % N = q % N) :
    bytesFrom N buf p k = bytesFrom N buf q k := by
  induction k generalizing p q with
  | zero => rfl
  | succ k ih =>
    have h1 : (p + 1) % N = (q + 1) % N := by
      rw [← Nat.mod_add_mod, h, Nat.mod_add_mod]
    simp [bytesFrom, h, ih h1]

theorem bytesFrom_append (N : Nat) (buf : Nat → Nat) (pos k m : Nat) :
    bytesFrom N buf pos (k + m) =
      bytesFrom N buf pos k ++ bytesFrom N buf (pos + k) m := by
  induction k generalizing pos with
  | zero => simp [bytesFrom]
  | succ k ih =>
    have : k + 1 + m = (k + m) + 1 := by omega
    rw [this]
    simp only [bytesFrom, List.cons_append]
    rw [ih (pos + 1)]
    have : pos + 1 + k = pos + (k + 1) := by omega
    rw [this]

theorem bytesFrom_ext (N : Nat) (k : Nat) {b1 b2 : Nat → Nat} {pos : Nat}
    (h : ∀ i < k, b1 ((pos + i) % N) = b2 ((pos + i) % N)) :
    bytesFrom N b1 pos k = bytesFrom N b2 pos k := by
  induction k generalizing pos with
  | zero => rfl
  | succ k ih =>
    have h0 : b1 (pos % N) = b2 (pos % N) := by
      have := h 0 (by omega)
      simpa using this
    have hrest : ∀ i < k, b1 ((pos + 1 + i) % N) = b2 ((pos + 1 + i) % N) := by
      intro i hi
      have := h (i + 1) (by omega)
      have harg : pos + (i + 1) = pos + 1 + i := by omega
      rwa [harg] at this
    simp [bytesFrom, h0, ih hrest]

theorem readLoop_eq (N k : Nat) (s : RingState) (ht : s.tail < N) :
    readLoop N k s =
      (bytesFrom N s.buf s.tail k, { s with tail := (s.tail + k) % N }) := by
  induction k generalizing s with
  | zero =>
    simp [readLoop, bytesFrom, Nat.mod_eq_of_lt ht]
  | succ k ih =>
    have hN : 0 < N := by omega
    have ht1 : (s.tail + 1) % N < N := Nat.mod_lt _ hN
    simp only [readLoop]
    rw [ih { s with tail := (s.tail + 1) % N } ht1]
    have hbytes : bytesFrom N s.buf ((s.tail + 1) % N) k =
        bytesFrom N s.buf (s.tail + 1) k :=
      bytesFrom_congr_pos N s.buf k (Nat.mod_mod_of_dvd _ dvd_rfl)
    have htail : ((s.tail + 1) % N + k) % N = (s.tail + (k + 1)) % N := by
      rw [Nat.mod_add_mod]
      have : s.tail + 1 + k = s.tail + (k + 1) := by omega
      rw [this]
    simp only [bytesFrom, Nat.mod_eq_of_lt ht, hbytes, htail]

theorem usedAbs_eq (N : Nat) (s : RingState) (hh : s.head < N) (ht : s.tail < N) :
    (s.tail ≤ s.head ∧ usedAbs N s = s.head - s.tail) ∨
    (s.head < s.tail ∧ usedAbs N s = s.head + N - s.tail) := by
  unfold usedAbs
  rw [mod_resolve _ N (by omega)]
  split_ifs <;> omega

theorem tail_add_used (N : Nat) (s : RingState) (hh : s.head < N) (ht : s.tail < N) :
    (s.tail + usedAbs N s) % N = s.head := by
  rcases usedAbs_eq N s hh ht with ⟨h1, h2⟩ | ⟨h1, h2⟩ <;>
    rw [h2, mod_resolve _ N (by omega)] <;> split_ifs <;> omega

theorem pos_ne_head (N : Nat) (s : RingState) (hh : s.head < N) (ht : s.tail < N)
    {i : Nat} (hi : i < usedAbs N s) : (s.tail + i) % N ≠ s.head := by
  rcases usedAbs_eq N s hh ht with ⟨h1, h2⟩ | ⟨h1, h2⟩ <;>
    rw [mod_resolve _ N (by omega)] <;> split_ifs <;> omega

theorem usedAbs_advance_tail (N : Nat) (s : RingState) (k : Nat)
    (hh : s.head < N) (ht : s.tail < N) (hk : k ≤ usedAbs N s) :
    usedAbs N { s with tail := (s.tail + k) % N } = usedAbs N s - k := by
  have hu : usedAbs N s < N := usedAbs_lt N s (by omega)
  have hgoal : usedAbs N { s with tail := (s.tail + k) % N } =
      (s.head + N - (s.tail + k) % N) % N := by
    simp [usedAbs]
  rw [hgoal]
  rcases usedAbs_eq N s hh ht with ⟨h1, h2⟩ | ⟨h1, h2⟩ <;>
  · rw [mod_resolve (s.tail + k) N (by omega)]
    split_ifs with hc
    · rw [mod_resolve _ N (by omega)]
      split_ifs <;> omega
    · rw [mod_resolve _ N (by omega)]
      split_ifs <;> omega

theorem advance_tail_contents (N : Nat) (s : RingState) (k : Nat)
    (hh : s.head < N) (ht : s.tail < N) (hk : k ≤ usedAbs N s) :
    contents N { s with tail := (s.tail + k) % N } = (contents N s).drop k := by
  have hsplit : usedAbs N s = k + (usedAbs N s - k) := by omega
  unfold contents
  rw [usedAbs_advance_tail N s k hh ht hk]
  conv =>
    rhs
    rw [hsplit, bytesFrom_append]
  rw [List.drop_left' (bytesFrom_length N s.buf s.tail k)]
  exact bytesFrom_congr_pos N s.buf _ (Nat.mod_mod_of_dvd _ dvd_rfl)

theorem contents_take (N : Nat) (s : RingState) (k : Nat) (hk : k ≤ usedAbs N s) :
    (contents N s).take k = bytesFrom N s.buf s.tail k := by
  have hsplit : usedAbs N s = k + (usedAbs N s - k) := by omega
  unfold contents
  rw [hsplit, bytesFrom_append]
  exact List.take_left' (bytesFrom_length N s.buf s.tail k)

theorem readLoop_spec (N k : Nat) (s : RingState)
    (hh : s.head < N) (ht : s.tail < N) (hk : k ≤ usedAbs N s) :
    (readLoop N k s).1 = (contents N s).take k ∧
    (readLoop N k s).2.buf = s.buf ∧
    (readLoop N k s).2.head = s.head ∧
    (readLoop N k s).2.tail = (s.tail + k) % N ∧
    usedAbs N (readLoop N k s).2 = usedAbs N s - k ∧
    contents N (readLoop N k s).2 = (contents N s).drop k := by
  rw [readLoop_eq N k s ht, contents_take N s k hk]
  refine ⟨rfl, rfl, rfl, rfl, usedAbs_advance_tail N s k hh ht hk,
    advance_tail_contents N s k hh ht hk⟩

theorem peekLoop_eq (N k : Nat) (pos : Nat) (buf : Nat → Nat) (hp : pos < N) :
    peekLoop N k pos buf = bytesFrom N buf pos k := by
  induction k generalizing pos with
  | zero => rfl
  | succ k ih =>
    have hN : 0 < N := by omega
    have h1 : (pos + 1) % N < N := Nat.mod_lt _ hN
    simp only [peekLoop, bytesFrom, Nat.mod_eq_of_lt hp]
    rw [ih ((pos + 1) % N) h1]
    exact congrArg _ (bytesFrom_congr_pos N buf k (Nat.mod_mod_of_dvd _ dvd_rfl))

theorem writeLoop_one (N : Nat) (b : Nat) (s : RingState)
    (hh : s.head < N) (ht : s.tail < N) (hfree : usedAbs N s + 1 ≤ N - 1) :
    usedAbs N (writeOne N b s) = usedAbs N s + 1 ∧
    contents N (writeOne N b s) = contents N s ++ [b % 256] := by
  have hu : usedAbs N s < N := usedAbs_lt N s (by omega)
  have hused : usedAbs N (writeOne N b s) = usedAbs N s + 1 := by
    have hgoal : usedAbs N (writeOne N b s) =
        ((s.head + 1) % N + N - s.tail) % N := by
      simp [usedAbs, writeOne]
    rw [hgoal]
    rcases usedAbs_eq N s hh ht with ⟨h1, h2⟩ | ⟨h1, h2⟩ <;>
    · rw [mod_resolve (s.head + 1) N (by omega)]
      split_ifs with hc
      · rw [mod_resolve _ N (by omega)]
        split_ifs <;> omega
      · rw [mod_resolve _ N (by omega)]
        split_ifs <;> omega
  refine ⟨hused, ?_⟩
  have hcont : contents N (writeOne N b s) =
      bytesFrom N (fun j => if j = s.head then b % 256 else s.buf j)
        s.tail (usedAbs N s + 1) := by
    unfold contents
    rw [hused]
    rfl
  rw [hcont, bytesFrom_append N _ s.tail (usedAbs N s) 1]
  have hlast : bytesFrom N (fun j => if j = s.head then b % 256 else s.buf j)
      (s.tail + usedAbs N s) 1 = [b % 256] := by
    simp only [bytesFrom]
    rw [tail_add_used N s hh ht]
    simp
  have hfirst : bytesFrom N (fun j => if j = s.head then b % 256 else s.buf j)
      s.tail (usedAbs N s) = bytesFrom N s.buf s.tail (usedAbs N s) := by
    apply bytesFrom_ext
    intro i hi
    have hne := pos_ne_head N s hh ht hi
    simp [hne]
  rw [hlast, hfirst]
  rfl

theorem writeLoop_spec (N : Nat) (data : List Nat) (s : RingState)
    (hh : s.head < N) (ht : s.tail < N)
    (hfree : usedAbs N s + data.length ≤ N - 1) :
    (writeLoop N data s).head = (s.head + data.length) % N ∧
    (writeLoop N data s).tail = s.tail ∧
    (writeLoop N data s).head < N ∧
    usedAbs N (writeLoop N data s) = usedAbs N s + data.length ∧
    contents N (writeLoop N data s) =
      contents N s ++ data.map (fun x => x % 256) := by
  induction data generalizing s with
  | nil =>
    simp [writeLoop, Nat.mod_eq_of_lt hh, hh]
  | cons b bs ih =>
    have hN : 0 < N := by omega
    have hone := writeLoop_one N b s hh ht (by simp at hfree; omega)
    have hh1 : (writeOne N b s).head < N := Nat.mod_lt _ hN
    have ht1 : (writeOne N b s).tail < N := ht
    have step : writeLoop N (b :: bs) s = writeLoop N bs (writeOne N b s) := rfl
    rw [step]
    have ihr := ih (writeOne N b s) hh1 ht1
      (by rw [hone.1]; simp at hfree ⊢; omega)
    obtain ⟨ih1, ih2, ih3, ih4, ih5⟩ := ihr
    refine ⟨?_, by simpa [writeOne] using ih2, ih3, ?_, ?_⟩
    · rw [ih1]
      show ((s.head + 1) % N + bs.length) % N = (s.head + (b :: bs).length) % N
      rw [Nat.mod_add_mod]
      have : s.head + 1 + bs.length = s.head + (b :: bs).length := by
        simp; omega
      rw [this]
    · rw [ih4, hone.1]
      simp; omega
    · rw [ih5, hone.2]
      simp

/-!
BK7258 variant, translated from
`src/lib/platform/bk/armino/src/bk_zig_ble_helper.c`.  Cursors there are
`volatile uint32_t`; all cursor arithmetic is `% 2^32`.
-/

def HCI_BUF_SIZE : Nat := 32768

/-- BK `ring_used`: `(s_ring_head - s_ring_tail + HCI_BUF_SIZE) % HCI_BUF_SIZE`
in `uint32_t` arithmetic — the subtraction may wrap and the addition may
overflow, so both are spelled with `% 2^32` (cursors are `uint32_t`
values, i.e. `< 2^32`). -/
def bk_ring_used (s : RingState) : Nat :=
  (((s.head + 4294967296 - s.tail) % 4294967296 + HCI_BUF_SIZE) % 4294967296) %
    HCI_BUF_SIZE

/-- BK `ring_free`: `HCI_BUF_SIZE - 1 - ring_used()` (never wraps because
`ring_used() < HCI_BUF_SIZE`). -/
def bk_ring_free (s : RingState) : Nat :=
  HCI_BUF_SIZE - 1 - bk_ring_used s

/-- BK `ring_read_unlocked`: copies `min(used, max_len)` bytes out,
advancing `tail`. -/
def bk_ring_read (max_len : Nat) (s : RingState) : List Nat × RingState :=
  readLoop HCI_BUF_SIZE (min (bk_ring_used s) max_len) s

/-- Module state of `bk_zig_ble_helper.c`: the ring statics together with
`s_data_sem`/`s_ring_mutex` (modelled as "handle is non-NULL" flags),
`s_initialized` and `s_drop_count`. -/
structure BkState where
  ring : RingState
  sem : Bool
  mutex : Bool
  initialized : Bool
  drop : Nat

/-- The 2-byte length prefix written by `hci_from_controller_cb`:
`{ (uint8_t)(len >> 8), (uint8_t)(len & 0xFF) }` — high byte first. -/
def bk_hdr (len : Nat) : List Nat :=
  [len / 256 % 256, len % 256]

/-- BK `hci_from_controller_cb`: the registered IPC producer callback.
Returns the new module state and whether `rtos_set_semaphore` was called.
The rate-limited `BK_LOGW` on the drop path has no state effect beyond
`s_drop_count` and is not modelled. -/
def hci_from_controller_cb (pkt : List Nat) (s : BkState) : BkState × Bool :=
  if pkt.length = 0 ∨ s.initialized = false then (s, false)
  else if bk_ring_free s.ring < 2 + pkt.length then
    ({ s with drop := s.drop + 1 }, false)
  else
    let r1 := writeLoop HCI_BUF_SIZE (bk_hdr pkt.length) s.ring
    let r2 := writeLoop HCI_BUF_SIZE pkt r1
    ({ s with ring := r2 }, s.sem)

/-- BK `bk_zig_ble_recv`: returns the bytes copied into the caller's buffer
(the C function returns their count, `0` when nothing was copied) and the
new module state.  `pkt_len` is `((uint16_t)hdr[0] << 8) | hdr[1]`; the
`|` is `+` because `hdr[1]` is a byte. -/
def bk_zig_ble_recv (max_len : Nat) (s : BkState) : List Nat × BkState :=
  if bk_ring_used s.ring < 2 then ([], s)
  else
    let saved_tail := s.ring.tail
    let r := bk_ring_read 2 s.ring
    let pkt_len := r.1.getD 0 0 * 256 + r.1.getD 1 0
    if max_len < pkt_len ∨ bk_ring_used r.2 < pkt_len then
      ([], { s with ring := { r.2 with tail := saved_tail } })
    else
      let r2 := bk_ring_read pkt_len r.2
      (r2.1, { s with ring := r2.2 })

/-- BK `bk_zig_ble_wait_for_data`.  The semaphore acquisition is external
and concurrent stores may run while blocked, so it is modelled by an
oracle: `semRet` is the `rtos_get_semaphore` return value and `ringAfter`
the ring state observed after waking.  The result pairs the C return value
with a flag telling whether the semaphore wait was reached (false =
returned on the fast path or on a NULL semaphore). -/
def bk_zig_ble_wait_for_data (timeout_ms : Int) (s : BkState)
    (semRet : Int) (ringAfter : RingState) : Nat × Bool :=
  if 0 < bk_ring_used s.ring then (1, false)
  else if s.sem = false then (0, false)
  else ((if semRet = 0 ∧ 0 < bk_ring_used ringAfter then 1 else 0), true)

/-- BK `bk_zig_ble_send_cmd`: forwards to `bt_ipc_hci_send_cmd` with no
state check at all; result is the C return value and whether the IPC send
was invoked.  The module state is taken (and ignored, exactly as in the
source, which reads none of the statics here). -/
def bk_zig_ble_send_cmd (buf : List Nat) (s : BkState) : Int × Bool :=
  if buf.length < 3 then (-1, false) else (0, true)

/-- BK `bk_zig_ble_deinit`: unregisters the callback, clears
`s_initialized`, frees the semaphore and mutex, and resets the cursors.
`s_ring_buf` and `s_drop_count` are not touched. -/
def bk_zig_ble_deinit (s : BkState) : BkState :=
  if s.initialized = false then s
  else
    { ring := { buf := s.ring.buf, head := 0, tail := 0 }
      sem := false
      mutex := false
      initialized := false, drop := s.drop }

/-- BK `bk_zig_ble_init` (success path of the external calls): creates the
semaphore and mutex, registers the callback, sets `s_initialized` and
resets `s_drop_count`.  The ring cursors and buffer are not touched. -/
def bk_zig_ble_init (s : BkState) : BkState × Int :=
  if s.initialized then (s, 0)
  else ({ s with sem := true, mutex := true, initialized := true, drop := 0 }, 0)

/-- BK `bk_zig_ble_can_send`. -/
def bk_zig_ble_can_send (s : BkState) : Int :=
  if s.initialized then 1 else 0

theorem bk_used_eq (s : RingState)
    (hh : s.head < HCI_BUF_SIZE) (ht : s.tail < HCI_BUF_SIZE) :
    bk_ring_used s = usedAbs HCI_BUF_SIZE s := by
  unfold bk_ring_used usedAbs HCI_BUF_SIZE at *
  omega

/-!
ESP32 variant, translated from
`src/lib/platform/esp/idf/src/bt/bt_helper.c`.  Cursors there are
`volatile uint16_t`.  In `ring_used` the C expression
`(uint16_t)((rx_head - rx_tail) % RX_RING_SIZE)` promotes both `uint16_t`
operands to `int`, so the subtraction is signed, `%` truncates toward zero
(`Int.tmod`), and the final cast back to `uint16_t` reduces modulo
`2^16`. -/

def RX_RING_SIZE : Nat := 4096

/-- ESP `ring_used` with the C integer promotion made explicit. -/
def esp_ring_used (s : RingState) : Nat :=
  ((((s.head : Int) - (s.tail : Int)).tmod 4096) % 65536).toNat

/-- ESP `ring_free`: `(uint16_t)(RX_RING_SIZE - 1 - ring_used())`, again
`int` arithmetic cast back to `uint16_t`. -/
def esp_ring_free (s : RingState) : Nat :=
  (((RX_RING_SIZE : Int) - 1 - (esp_ring_used s : Int)) % 65536).toNat

/-- ESP `ring_write`: checks `ring_free() < len` and otherwise copies
byte-by-byte. -/
def esp_ring_write (data : List Nat) (s : RingState) : Bool × RingState :=
  if esp_ring_free s < data.length then (false, s)
  else (true, writeLoop RX_RING_SIZE data s)

/-- ESP `ring_read`: copies exactly `len` bytes (callers have checked
availability). -/
def esp_ring_read (len : Nat) (s : RingState) : List Nat × RingState :=
  readLoop RX_RING_SIZE len s

/-- ESP `ring_peek`. -/
def esp_ring_peek (len : Nat) (s : RingState) : List Nat :=
  peekLoop RX_RING_SIZE len s.tail s.buf

/-- ESP `ring_skip`: `rx_tail = (rx_tail + len) % RX_RING_SIZE`. -/
def esp_ring_skip (len : Nat) (s : RingState) : RingState :=
  { s with tail := (s.tail + len) % RX_RING_SIZE }

/-- Module state of `bt_helper.c`: the ring statics and `rx_sem`
("handle is non-NULL").  Note there is no drop counter in this variant. -/
structure EspState where
  ring : RingState
  sem : Bool

/-- The 2-byte length prefix written by `on_host_recv`:
`{ (uint8_t)(len & 0xFF), (uint8_t)(len >> 8) }` — low byte first. -/
def esp_hdr (len : Nat) : List Nat :=
  [len % 256, len / 256 % 256]

/-- ESP `on_host_recv`: the VHCI producer callback.  `total` is a
`uint16_t`.  The two `ring_write` return values are ignored by the C code
(space was pre-checked), exactly as here.  Returns the new module state
and whether `xSemaphoreGive` was called. -/
def on_host_recv (pkt : List Nat) (s : EspState) : EspState × Bool :=
  if pkt.length = 0 then (s, false)
  else
    let total := (2 + pkt.length) % 65536
    if esp_ring_free s.ring < total then (s, false)
    else
      let r1 := esp_ring_write (esp_hdr pkt.length) s.ring
      let r2 := esp_ring_write pkt r1.2
      ({ ring := r2.2, sem := s.sem }, s.sem)

/-- ESP `bt_helper_recv`: returns the C return value (`0` empty,
`-1` buffer too small with the packet discarded, `pkt_len` on success),
the bytes copied into the caller's buffer, and the new module state.
`pkt_len = (uint16_t)(hdr[0] | (hdr[1] << 8))` — little-endian, the `|`
is `+` because `hdr[0]` is a byte; the argument of `ring_skip` passes
through a `uint16_t` parameter, hence `% 65536`. -/
def bt_helper_recv (buf_len : Nat) (s : EspState) : Int × List Nat × EspState :=
  if esp_ring_used s.ring < 2 then (0, [], s)
  else
    let hdr := esp_ring_peek 2 s.ring
    let pkt_len := hdr.getD 0 0 + hdr.getD 1 0 * 256
    if esp_ring_used s.ring < (2 + pkt_len) % 65536 then (0, [], s)
    else if buf_len < pkt_len then
      (-1, [], { s with ring := esp_ring_skip ((2 + pkt_len) % 65536) s.ring })
    else
      let r1 := esp_ring_skip 2 s.ring
      let r := esp_ring_read pkt_len r1
      ((pkt_len : Int), r.1, { s with ring := r.2 })

/-- ESP `bt_helper_init`, ring-visible effects of the success path: the
semaphore is created and `rx_head = rx_tail = 0`; the buffer bytes are not
cleared.  (The controller-setup calls are external.) -/
def bt_helper_init (s : EspState) : EspState :=
  { ring := { buf := s.ring.buf, head := 0, tail := 0 }, sem := true }

/-- ESP `bt_helper_deinit`: disables the external controller and deletes
the semaphore; the ring cursors and buffer are not touched at all. -/
def bt_helper_deinit (s : EspState) : EspState :=
  { ring := s.ring, sem := false }

/-- ESP `bt_helper_has_data`: `ring_used() >= 2`. -/
def bt_helper_has_data (s : EspState) : Bool :=
  decide (2 ≤ esp_ring_used s.ring)

theorem int_neg_tmod (a b : Int) : (-a).tmod b = -(a.tmod b) := by
  simp [Int.tmod_def, Int.neg_tdiv, Int.neg_mul, Int.mul_neg]
  omega

/-- Closed form of the (buggy) ESP `ring_used`: correct when
`tail ≤ head`, but `61440` too large when the ring has wrapped. -/
theorem esp_used_eq (s : RingState)
    (hh : s.head < RX_RING_SIZE) (ht : s.tail < RX_RING_SIZE) :
    esp_ring_used s =
      if s.tail ≤ s.head then usedAbs RX_RING_SIZE s
      else usedAbs RX_RING_SIZE s + 61440 := by
  unfold esp_ring_used usedAbs RX_RING_SIZE at *
  by_cases h : s.tail ≤ s.head
  · have hcast : ((s.head : Int) - s.tail) = ((s.head - s.tail : Nat) : Int) := by
      omega
    rw [hcast, Int.tmod_eq_emod (Int.ofNat_nonneg _) (by norm_num)]
    rw [if_pos h]
    omega
  · have hcast : ((s.head : Int) - s.tail) = -((s.tail - s.head : Nat) : Int) := by
      omega
    rw [hcast, int_neg_tmod, Int.tmod_eq_emod (Int.ofNat_nonneg _) (by norm_num)]
    rw [if_neg h]
    omega

/-- Closed form of ESP `ring_free`: over-reports by exactly
`RX_RING_SIZE` when the ring has wrapped. -/
theorem esp_free_eq (s : RingState)
    (hh : s.head < RX_RING_SIZE) (ht : s.tail < RX_RING_SIZE) :
    esp_ring_free s =
      if s.tail ≤ s.head then RX_RING_SIZE - 1 - usedAbs RX_RING_SIZE s
      else RX_RING_SIZE - 1 - usedAbs RX_RING_SIZE s + RX_RING_SIZE := by
  have hu := esp_used_eq s hh ht
  have huabs : usedAbs RX_RING_SIZE s < RX_RING_SIZE :=
    usedAbs_lt _ s (by unfold RX_RING_SIZE; omega)
  have hw : ¬s.tail ≤ s.head → 1 ≤ usedAbs RX_RING_SIZE s := by
    intro hlt
    rcases usedAbs_eq RX_RING_SIZE s hh ht with ⟨h1, h2⟩ | ⟨h1, h2⟩ <;>
      unfold RX_RING_SIZE at * <;> omega
  unfold esp_ring_free RX_RING_SIZE at *
  rw [hu]
  split_ifs with h
  · omega
  · have := hw h
    omega

theorem esp_used_ge (s : RingState)
    (hh : s.head < RX_RING_SIZE) (ht : s.tail < RX_RING_SIZE) :
    usedAbs RX_RING_SIZE s ≤ esp_ring_used s := by
  rw [esp_used_eq s hh ht]
  split_ifs <;> omega

theorem esp_free_ge (s : RingState)
    (hh : s.head < RX_RING_SIZE) (ht : s.tail < RX_RING_SIZE) :
    RX_RING_SIZE - 1 - usedAbs RX_RING_SIZE s ≤ esp_ring_free s := by
  rw [esp_free_eq s hh ht]
  split_ifs <;> omega

theorem esp_used_of_empty (s : RingState) (h : s.head = s.tail)
    (ht : s.tail < RX_RING_SIZE) :
    esp_ring_used s = 0 := by
  have hu := esp_used_eq s (by omega) ht
  rw [if_pos (by omega)] at hu
  rw [hu]
  unfold usedAbs RX_RING_SIZE
  omega

/-!
Frame layer: the queue-of-frames abstraction over the two modules and the
corresponding store/recv lemmas.
-/

theorem contents_length (N : Nat) (s : RingState) :
    (contents N s).length = usedAbs N s :=
  bytesFrom_length N s.buf s.tail (usedAbs N s)

/-- Well-formedness of a packet as delivered to a producer callback:
nonempty (both callbacks ignore `len == 0`), a `uint16_t` length, and
`uint8_t` bytes. -/
def GoodFrame (f : List Nat) : Prop :=
  f ≠ [] ∧ f.length < 65536 ∧ ∀ b ∈ f, b < 256

/-- BK in-ring encoding of a stored frame: big-endian length prefix. -/
def bkFrame (f : List Nat) : List Nat := bk_hdr f.length ++ f

/-- ESP in-ring encoding of a stored frame: little-endian length prefix. -/
def espFrame (f : List Nat) : List Nat := esp_hdr f.length ++ f

/-- Abstraction of the BK module state: cursors in range, module
initialized, and the ring holding exactly the frames of `Q`, oldest
first. -/
def BkInv (Q : List (List Nat)) (s : BkState) : Prop :=
  s.ring.head < HCI_BUF_SIZE ∧ s.ring.tail < HCI_BUF_SIZE ∧
  s.initialized = true ∧
  contents HCI_BUF_SIZE s.ring = (Q.map bkFrame).flatten

/-- Abstraction of the ESP module state. -/
def EspInv (Q : List (List Nat)) (s : EspState) : Prop :=
  s.ring.head < RX_RING_SIZE ∧ s.ring.tail < RX_RING_SIZE ∧
  contents RX_RING_SIZE s.ring = (Q.map espFrame).flatten

theorem map_mod_eq_self {f : List Nat} (h : ∀ b ∈ f, b < 256) :
    f.map (fun x => x % 256) = f := by
  induction f with
  | nil => rfl
  | cons a l ih =>
    simp only [List.mem_cons] at h
    simp only [List.map_cons, List.cons.injEq]
    refine ⟨Nat.mod_eq_of_lt (h a (Or.inl rfl)), ih ?_⟩
    intro b hb
    exact h b (Or.inr hb)

theorem bk_hdr_map_mod (L : Nat) :
    (bk_hdr L).map (fun x => x % 256) = bk_hdr L := by
  have h1 : L / 256 % 256 % 256 = L / 256 % 256 := Nat.mod_mod_of_dvd _ dvd_rfl
  have h2 : L % 256 % 256 = L % 256 := Nat.mod_mod_of_dvd _ dvd_rfl
  simp [bk_hdr, h1, h2]

theorem esp_hdr_map_mod (L : Nat) :
    (esp_hdr L).map (fun x => x % 256) = esp_hdr L := by
  have h1 : L / 256 % 256 % 256 = L / 256 % 256 := Nat.mod_mod_of_dvd _ dvd_rfl
  have h2 : L % 256 % 256 = L % 256 := Nat.mod_mod_of_dvd _ dvd_rfl
  simp [esp_hdr, h1, h2]

theorem bk_free_eq (s : RingState)
    (hh : s.head < HCI_BUF_SIZE) (ht : s.tail < HCI_BUF_SIZE) :
    bk_ring_free s = HCI_BUF_SIZE - 1 - usedAbs HCI_BUF_SIZE s := by
  unfold bk_ring_free
  rw [bk_used_eq s hh ht]

/-- Effect of a successful BK store: the frame is appended. -/
theorem bk_store_spec (f : List Nat) (Q : List (List Nat)) (s : BkState)
    (hinv : BkInv Q s) (hf : GoodFrame f)
    (hfit : ((Q.map bkFrame).flatten).length + 2 + f.length ≤ HCI_BUF_SIZE - 1) :
    (hci_from_controller_cb f s).1.drop = s.drop ∧
    (hci_from_controller_cb f s).1.sem = s.sem ∧
    (hci_from_controller_cb f s).2 = s.sem ∧
    BkInv (Q ++ [f]) (hci_from_controller_cb f s).1 := by
  obtain ⟨hh, ht, hinit, hcont⟩ := hinv
  obtain ⟨hne, hlen, hbytes⟩ := hf
  have hN : (0 : Nat) < HCI_BUF_SIZE := by unfold HCI_BUF_SIZE; omega
  have hu : (contents HCI_BUF_SIZE s.ring).length = usedAbs HCI_BUF_SIZE s.ring :=
    contents_length _ _
  have hufit : usedAbs HCI_BUF_SIZE s.ring + 2 + f.length ≤ HCI_BUF_SIZE - 1 := by
    rw [hcont] at hu
    omega
  have hc1 : ¬(f.length = 0 ∨ s.initialized = false) := by
    simp [hinit, hne]
  have hc2 : ¬(bk_ring_free s.ring < 2 + f.length) := by
    rw [bk_free_eq s.ring hh ht]
    omega
  have hw1 := writeLoop_spec HCI_BUF_SIZE (bk_hdr f.length) s.ring hh ht
    (by simp [bk_hdr]; omega)
  obtain ⟨hw1h, hw1t, hw1hlt, hw1u, hw1c⟩ := hw1
  have hw2 := writeLoop_spec HCI_BUF_SIZE f
    (writeLoop HCI_BUF_SIZE (bk_hdr f.length) s.ring) hw1hlt
    (by rw [hw1t]; exact ht)
    (by rw [hw1u]; simp [bk_hdr]; omega)
  obtain ⟨hw2h, hw2t, hw2hlt, hw2u, hw2c⟩ := hw2
  unfold hci_from_controller_cb
  rw [if_neg hc1, if_neg hc2]
  refine ⟨rfl, rfl, rfl, hw2hlt, ?_, hinit, ?_⟩
  · show (writeLoop HCI_BUF_SIZE f
        (writeLoop HCI_BUF_SIZE (bk_hdr f.length) s.ring)).tail < HCI_BUF_SIZE
    rw [hw2t, hw1t]
    exact ht
  · show contents HCI_BUF_SIZE (writeLoop HCI_BUF_SIZE f
        (writeLoop HCI_BUF_SIZE (bk_hdr f.length) s.ring)) =
      ((Q ++ [f]).map bkFrame).flatten
    rw [hw2c, hw1c, hcont, bk_hdr_map_mod, map_mod_eq_self hbytes]
    simp [bkFrame, List.append_assoc]

/-- BK `bk_zig_ble_recv` on an empty ring returns the empty result and
leaves the state untouched. -/
theorem bk_recv_empty (s : BkState) (max_len : Nat) (hinv : BkInv [] s) :
    bk_zig_ble_recv max_len s = ([], s) := by
  obtain ⟨hh, ht, hinit, hcont⟩ := hinv
  have hused : usedAbs HCI_BUF_SIZE s.ring = 0 := by
    have hl := contents_length HCI_BUF_SIZE s.ring
    rw [hcont] at hl
    simp at hl
    omega
  unfold bk_zig_ble_recv
  rw [if_pos (by rw [bk_used_eq s.ring hh ht, hused]; omega)]

/-- BK `bk_zig_ble_recv` with the oldest stored frame `f` present and a
large enough caller buffer: returns exactly `f` and consumes exactly that
frame. -/
theorem bk_recv_spec (f : List Nat) (Q : List (List Nat)) (s : BkState)
    (max_len : Nat) (hinv : BkInv (f :: Q) s)
    (hlen : f.length < 65536) (hmax : f.length ≤ max_len) :
    (bk_zig_ble_recv max_len s).1 = f ∧
    (bk_zig_ble_recv max_len s).2.drop = s.drop ∧
    (bk_zig_ble_recv max_len s).2.sem = s.sem ∧
    BkInv Q (bk_zig_ble_recv max_len s).2 := by
  obtain ⟨hh, ht, hinit, hcont⟩ := hinv
  have hN : (0 : Nat) < HCI_BUF_SIZE := by unfold HCI_BUF_SIZE; omega
  have hcont' : contents HCI_BUF_SIZE s.ring =
      bk_hdr f.length ++ (f ++ (Q.map bkFrame).flatten) := by
    rw [hcont]
    simp [bkFrame, List.append_assoc]
  have hulen : usedAbs HCI_BUF_SIZE s.ring =
      2 + (f.length + (Q.map bkFrame).flatten.length) := by
    have hl := contents_length HCI_BUF_SIZE s.ring
    rw [hcont', List.length_append, List.length_append] at hl
    have hbl : (bk_hdr f.length).length = 2 := rfl
    omega
  have hused_eq := bk_used_eq s.ring hh ht
  have hcond1 : ¬(bk_ring_used s.ring < 2) := by
    rw [hused_eq]
    omega
  have hmin1 : min (bk_ring_used s.ring) 2 = 2 := by
    rw [hused_eq]
    omega
  have hread2 : bk_ring_read 2 s.ring = readLoop HCI_BUF_SIZE 2 s.ring := by
    unfold bk_ring_read
    rw [hmin1]
  have hr := readLoop_spec HCI_BUF_SIZE 2 s.ring hh ht (by omega)
  obtain ⟨hr1, hrbuf, hrhead, hrtail, hru, hrc⟩ := hr
  have htake2 : (contents HCI_BUF_SIZE s.ring).take 2 = bk_hdr f.length := by
    rw [hcont']
    exact List.take_left' (by simp [bk_hdr])
  have hdrop2 : (contents HCI_BUF_SIZE s.ring).drop 2 =
      f ++ (Q.map bkFrame).flatten := by
    rw [hcont']
    exact List.drop_left' (by simp [bk_hdr])
  have hdecode : (readLoop HCI_BUF_SIZE 2 s.ring).1.getD 0 0 * 256 +
      (readLoop HCI_BUF_SIZE 2 s.ring).1.getD 1 0 = f.length := by
    rw [hr1, htake2]
    simp [bk_hdr]
    omega
  have hr2h : (readLoop HCI_BUF_SIZE 2 s.ring).2.head < HCI_BUF_SIZE := by
    rw [hrhead]
    exact hh
  have hr2t : (readLoop HCI_BUF_SIZE 2 s.ring).2.tail < HCI_BUF_SIZE := by
    rw [hrtail]
    exact Nat.mod_lt _ hN
  have hru2 : usedAbs HCI_BUF_SIZE (readLoop HCI_BUF_SIZE 2 s.ring).2 =
      f.length + (Q.map bkFrame).flatten.length := by
    rw [hru, hulen]
    omega
  have hused2_eq := bk_used_eq (readLoop HCI_BUF_SIZE 2 s.ring).2 hr2h hr2t
  have hcond2 : ¬(max_len <
        ((readLoop HCI_BUF_SIZE 2 s.ring).1.getD 0 0 * 256 +
          (readLoop HCI_BUF_SIZE 2 s.ring).1.getD 1 0) ∨
      bk_ring_used (readLoop HCI_BUF_SIZE 2 s.ring).2 <
        ((readLoop HCI_BUF_SIZE 2 s.ring).1.getD 0 0 * 256 +
          (readLoop HCI_BUF_SIZE 2 s.ring).1.getD 1 0)) := by
    rw [hdecode, hused2_eq, hru2]
    push_neg
    exact ⟨hmax, by omega⟩
  have hminL : min (bk_ring_used (readLoop HCI_BUF_SIZE 2 s.ring).2) f.length =
      f.length := by
    rw [hused2_eq, hru2]
    omega
  have hfr := readLoop_spec HCI_BUF_SIZE f.length
    (readLoop HCI_BUF_SIZE 2 s.ring).2 hr2h hr2t (by rw [hru2]; omega)
  obtain ⟨hf1, hfbuf, hfhead, hftail, hfu, hfc⟩ := hfr
  have heval : bk_zig_ble_recv max_len s =
      ((readLoop HCI_BUF_SIZE f.length (readLoop HCI_BUF_SIZE 2 s.ring).2).1,
       { s with ring :=
          (readLoop HCI_BUF_SIZE f.length (readLoop HCI_BUF_SIZE 2 s.ring).2).2 }) := by
    unfold bk_zig_ble_recv
    rw [if_neg hcond1]
    simp only [hread2]
    rw [if_neg hcond2]
    unfold bk_ring_read
    rw [hdecode, hminL]
  rw [heval]
  have hfval : (readLoop HCI_BUF_SIZE f.length
      (readLoop HCI_BUF_SIZE 2 s.ring).2).1 = f := by
    rw [hf1, hrc, hdrop2]
    exact List.take_left' rfl
  refine ⟨hfval, rfl, rfl, ?_, ?_, hinit, ?_⟩
  · show (readLoop HCI_BUF_SIZE f.length
        (readLoop HCI_BUF_SIZE 2 s.ring).2).2.head < HCI_BUF_SIZE
    rw [hfhead, hrhead]
    exact hh
  · show (readLoop HCI_BUF_SIZE f.length
        (readLoop HCI_BUF_SIZE 2 s.ring).2).2.tail < HCI_BUF_SIZE
    rw [hftail]
    exact Nat.mod_lt _ hN
  · show contents HCI_BUF_SIZE (readLoop HCI_BUF_SIZE f.length
        (readLoop HCI_BUF_SIZE 2 s.ring).2).2 = (Q.map bkFrame).flatten
    rw [hfc, hrc, hdrop2]
    exact List.drop_left' rfl

/-- Effect of a successful ESP store: the frame is appended. -/
theorem esp_store_spec (f : List Nat) (Q : List (List Nat)) (e : EspState)
    (hinv : EspInv Q e) (hf : GoodFrame f)
    (hfit : ((Q.map espFrame).flatten).length + 2 + f.length ≤ RX_RING_SIZE - 1) :
    (on_host_recv f e).1.sem = e.sem ∧
    (on_host_recv f e).2 = e.sem ∧
    EspInv (Q ++ [f]) (on_host_recv f e).1 := by
  obtain ⟨hh, ht, hcont⟩ := hinv
  obtain ⟨hne, hlen, hbytes⟩ := hf
  have hNpos : (0 : Nat) < RX_RING_SIZE := by unfold RX_RING_SIZE; omega
  have hu : (contents RX_RING_SIZE e.ring).length = usedAbs RX_RING_SIZE e.ring :=
    contents_length _ _
  have hufit : usedAbs RX_RING_SIZE e.ring + 2 + f.length ≤ RX_RING_SIZE - 1 := by
    rw [hcont] at hu
    omega
  have hsmall : (2 + f.length) % 65536 = 2 + f.length :=
    Nat.mod_eq_of_lt (by unfold RX_RING_SIZE at hufit; omega)
  have hfge := esp_free_ge e.ring hh ht
  have hcW1 : ¬(esp_ring_free e.ring < (esp_hdr f.length).length) := by
    simp only [esp_hdr, List.length_cons, List.length_nil]
    omega
  have hw1eq : esp_ring_write (esp_hdr f.length) e.ring =
      (true, writeLoop RX_RING_SIZE (esp_hdr f.length) e.ring) := by
    unfold esp_ring_write
    rw [if_neg hcW1]
  have hw1 := writeLoop_spec RX_RING_SIZE (esp_hdr f.length) e.ring hh ht
    (by simp [esp_hdr]; omega)
  obtain ⟨hw1h, hw1t, hw1hlt, hw1u, hw1c⟩ := hw1
  have hw1tlt : (writeLoop RX_RING_SIZE (esp_hdr f.length) e.ring).tail <
      RX_RING_SIZE := by
    rw [hw1t]
    exact ht
  have hfge2 := esp_free_ge (writeLoop RX_RING_SIZE (esp_hdr f.length) e.ring)
    hw1hlt hw1tlt
  have hlen2 : (esp_hdr f.length).length = 2 := rfl
  have hcW2 : ¬(esp_ring_free (writeLoop RX_RING_SIZE (esp_hdr f.length) e.ring) <
      f.length) := by
    rw [hw1u, hlen2] at hfge2
    omega
  have hw2eq : esp_ring_write f (writeLoop RX_RING_SIZE (esp_hdr f.length) e.ring) =
      (true, writeLoop RX_RING_SIZE f
        (writeLoop RX_RING_SIZE (esp_hdr f.length) e.ring)) := by
    unfold esp_ring_write
    rw [if_neg hcW2]
  have hw1eq2 : (esp_ring_write (esp_hdr f.length) e.ring).2 =
      writeLoop RX_RING_SIZE (esp_hdr f.length) e.ring := by
    rw [hw1eq]
  have hw2eq2 : (esp_ring_write f
      (writeLoop RX_RING_SIZE (esp_hdr f.length) e.ring)).2 =
      writeLoop RX_RING_SIZE f
        (writeLoop RX_RING_SIZE (esp_hdr f.length) e.ring) := by
    rw [hw2eq]
  have hw2 := writeLoop_spec RX_RING_SIZE f
    (writeLoop RX_RING_SIZE (esp_hdr f.length) e.ring) hw1hlt hw1tlt
    (by rw [hw1u]; simp [esp_hdr]; omega)
  obtain ⟨hw2h, hw2t, hw2hlt, hw2u, hw2c⟩ := hw2
  have hc0 : ¬(f.length = 0) := by simp [hne]
  have hcfree : ¬(esp_ring_free e.ring < (2 + f.length) % 65536) := by
    rw [hsmall]
    omega
  have heval : on_host_recv f e =
      ({ ring := writeLoop RX_RING_SIZE f
          (writeLoop RX_RING_SIZE (esp_hdr f.length) e.ring), sem := e.sem },
       e.sem) := by
    unfold on_host_recv
    rw [if_neg hc0, if_neg hcfree]
    simp only [hw1eq2, hw2eq2]
  rw [heval]
  refine ⟨rfl, rfl, hw2hlt, ?_, ?_⟩
  · show (writeLoop RX_RING_SIZE f
        (writeLoop RX_RING_SIZE (esp_hdr f.length) e.ring)).tail < RX_RING_SIZE
    rw [hw2t, hw1t]
    exact ht
  · show contents RX_RING_SIZE (writeLoop RX_RING_SIZE f
        (writeLoop RX_RING_SIZE (esp_hdr f.length) e.ring)) =
      ((Q ++ [f]).map espFrame).flatten
    rw [hw2c, hw1c, hcont, esp_hdr_map_mod, map_mod_eq_self hbytes]
    simp [espFrame, List.append_assoc]

/-- ESP `bt_helper_recv` on an empty ring returns `0` with no bytes and
leaves the state untouched. -/
theorem esp_recv_empty (e : EspState) (buf_len : Nat) (hinv : EspInv [] e) :
    bt_helper_recv buf_len e = (0, [], e) := by
  obtain ⟨hh, ht, hcont⟩ := hinv
  have hused : usedAbs RX_RING_SIZE e.ring = 0 := by
    have hl := contents_length RX_RING_SIZE e.ring
    rw [hcont] at hl
    simp at hl
    omega
  have hht : e.ring.head = e.ring.tail := by
    rcases usedAbs_eq RX_RING_SIZE e.ring hh ht with ⟨h1, h2⟩ | ⟨h1, h2⟩ <;>
      unfold RX_RING_SIZE at * <;> omega
  unfold bt_helper_recv
  rw [if_pos (by rw [esp_used_of_empty e.ring hht ht]; omega)]

/-- ESP `bt_helper_recv` with the oldest stored frame `f` present and a
large enough caller buffer: returns `pkt_len`, exactly the bytes of `f`,
and consumes exactly that frame. -/
theorem esp_recv_spec (f : List Nat) (Q : List (List Nat)) (e : EspState)
    (buf_len : Nat) (hinv : EspInv (f :: Q) e)
    (hlen : f.length < 65536) (hmax : f.length ≤ buf_len) :
    (bt_helper_recv buf_len e).1 = (f.length : Int) ∧
    (bt_helper_recv buf_len e).2.1 = f ∧
    (bt_helper_recv buf_len e).2.2.sem = e.sem ∧
    EspInv Q (bt_helper_recv buf_len e).2.2 := by
  obtain ⟨hh, ht, hcont⟩ := hinv
  have hNpos : (0 : Nat) < RX_RING_SIZE := by unfold RX_RING_SIZE; omega
  have hcont' : contents RX_RING_SIZE e.ring =
      esp_hdr f.length ++ (f ++ (Q.map espFrame).flatten) := by
    rw [hcont]
    simp [espFrame, List.append_assoc]
  have hulen : usedAbs RX_RING_SIZE e.ring =
      2 + (f.length + (Q.map espFrame).flatten.length) := by
    have hl := contents_length RX_RING_SIZE e.ring
    rw [hcont', List.length_append, List.length_append] at hl
    have hbl : (esp_hdr f.length).length = 2 := rfl
    omega
  have hult : usedAbs RX_RING_SIZE e.ring < RX_RING_SIZE :=
    usedAbs_lt _ _ hNpos
  have hLsmall : f.length + 2 < RX_RING_SIZE := by omega
  have huge := esp_used_ge e.ring hh ht
  have hcond1 : ¬(esp_ring_used e.ring < 2) := by omega
  have hpeek : esp_ring_peek 2 e.ring = esp_hdr f.length := by
    unfold esp_ring_peek
    rw [peekLoop_eq RX_RING_SIZE 2 e.ring.tail e.ring.buf ht]
    have htk := contents_take RX_RING_SIZE e.ring 2 (by omega)
    rw [← htk, hcont']
    exact List.take_left' (by simp [esp_hdr])
  have hdecode : (esp_ring_peek 2 e.ring).getD 0 0 +
      (esp_ring_peek 2 e.ring).getD 1 0 * 256 = f.length := by
    rw [hpeek]
    simp [esp_hdr]
    omega
  have hsmall : (2 + f.length) % 65536 = 2 + f.length :=
    Nat.mod_eq_of_lt (by unfold RX_RING_SIZE at hLsmall; omega)
  have hcond2 : ¬(esp_ring_used e.ring <
      (2 + ((esp_ring_peek 2 e.ring).getD 0 0 +
        (esp_ring_peek 2 e.ring).getD 1 0 * 256)) % 65536) := by
    rw [hdecode, hsmall]
    omega
  have hcond3 : ¬(buf_len < (esp_ring_peek 2 e.ring).getD 0 0 +
      (esp_ring_peek 2 e.ring).getD 1 0 * 256) := by
    rw [hdecode]
    omega
  have hskip2 : esp_ring_skip 2 e.ring =
      { e.ring with tail := (e.ring.tail + 2) % RX_RING_SIZE } := rfl
  have hsk_h : (esp_ring_skip 2 e.ring).head < RX_RING_SIZE := hh
  have hsk_t : (esp_ring_skip 2 e.ring).tail < RX_RING_SIZE := Nat.mod_lt _ hNpos
  have hsk_u : usedAbs RX_RING_SIZE (esp_ring_skip 2 e.ring) =
      usedAbs RX_RING_SIZE e.ring - 2 :=
    usedAbs_advance_tail RX_RING_SIZE e.ring 2 hh ht (by omega)
  have hsk_c : contents RX_RING_SIZE (esp_ring_skip 2 e.ring) =
      f ++ (Q.map espFrame).flatten := by
    have hdc := advance_tail_contents RX_RING_SIZE e.ring 2 hh ht (by omega)
    show contents RX_RING_SIZE { e.ring with tail := (e.ring.tail + 2) % RX_RING_SIZE } =
      f ++ (Q.map espFrame).flatten
    rw [hdc, hcont']
    exact List.drop_left' (by simp [esp_hdr])
  have hread := readLoop_spec RX_RING_SIZE f.length (esp_ring_skip 2 e.ring)
    hsk_h hsk_t (by rw [hsk_u, hulen]; omega)
  obtain ⟨hrd1, hrdbuf, hrdhead, hrdtail, hrdu, hrdc⟩ := hread
  have heval : bt_helper_recv buf_len e =
      ((f.length : Int),
       (readLoop RX_RING_SIZE f.length (esp_ring_skip 2 e.ring)).1,
       { e with ring :=
          (readLoop RX_RING_SIZE f.length (esp_ring_skip 2 e.ring)).2 }) := by
    unfold bt_helper_recv
    rw [if_neg hcond1, if_neg hcond2, if_neg hcond3, hdecode]
    rfl
  rw [heval]
  have hbytes1 : (readLoop RX_RING_SIZE f.length (esp_ring_skip 2 e.ring)).1 = f := by
    rw [hrd1, hsk_c]
    exact List.take_left' rfl
  refine ⟨rfl, hbytes1, rfl, ?_, ?_, ?_⟩
  · show (readLoop RX_RING_SIZE f.length (esp_ring_skip 2 e.ring)).2.head <
      RX_RING_SIZE
    rw [hrdhead]
    exact hh
  · show (readLoop RX_RING_SIZE f.length (esp_ring_skip 2 e.ring)).2.tail <
      RX_RING_SIZE
    rw [hrdtail]
    exact Nat.mod_lt _ hNpos
  · show contents RX_RING_SIZE
        (readLoop RX_RING_SIZE f.length (esp_ring_skip 2 e.ring)).2 =
      (Q.map espFrame).flatten
    rw [hrdc, hsk_c]
    exact List.drop_left' rfl

/-!
Sequences of stores and receives, for the FIFO property.
-/

/-- Fold a sequence of producer-callback invocations over the BK module. -/
def bkStoreAll (fs : List (List Nat)) (s : BkState) : BkState :=
  fs.foldl (fun t f => (hci_from_controller_cb f t).1) s

/-- Outputs of `n` successive `bk_zig_ble_recv` calls, collected in call
order. -/
def bkRecvSeq (max_len : Nat) : Nat → BkState → List (List Nat) × BkState
  | 0, s => ([], s)
  | n + 1, s =>
      let r := bk_zig_ble_recv max_len s
      let rest := bkRecvSeq max_len n r.2
      (r.1 :: rest.1, rest.2)

/-- Fold a sequence of producer-callback invocations over the ESP module. -/
def espStoreAll (fs : List (List Nat)) (e : EspState) : EspState :=
  fs.foldl (fun t f => (on_host_recv f t).1) e

/-- Outputs of `n` successive `bt_helper_recv` calls, collected in call
order. -/
def espRecvSeq (buf_len : Nat) : Nat → EspState → List (List Nat) × EspState
  | 0, e => ([], e)
  | n + 1, e =>
      let r := bt_helper_recv buf_len e
      let rest := espRecvSeq buf_len n r.2.2
      (r.2.1 :: rest.1, rest.2)

theorem bkFrame_length (f : List Nat) : (bkFrame f).length = 2 + f.length := by
  simp [bkFrame, bk_hdr]
  omega

theorem espFrame_length (f : List Nat) : (espFrame f).length = 2 + f.length := by
  simp [espFrame, esp_hdr]
  omega

theorem bkInv_nil (s : BkState) (hht : s.ring.head = s.ring.tail)
    (ht : s.ring.tail < HCI_BUF_SIZE) (hinit : s.initialized = true) :
    BkInv [] s := by
  refine ⟨by omega, ht, hinit, ?_⟩
  have hz : usedAbs HCI_BUF_SIZE s.ring = 0 := by
    unfold usedAbs HCI_BUF_SIZE at *
    omega
  simp [contents, hz, bytesFrom]

theorem espInv_nil (e : EspState) (hht : e.ring.head = e.ring.tail)
    (ht : e.ring.tail < RX_RING_SIZE) :
    EspInv [] e := by
  refine ⟨by omega, ht, ?_⟩
  have hz : usedAbs RX_RING_SIZE e.ring = 0 := by
    unfold usedAbs RX_RING_SIZE at *
    omega
  simp [contents, hz, bytesFrom]

theorem bk_storeAll_spec (fs : List (List Nat)) (Q : List (List Nat))
    (s : BkState) (hinv : BkInv Q s) (hgood : ∀ f ∈ fs, GoodFrame f)
    (hfit : ((Q.map bkFrame).flatten).length +
      (fs.map (fun f => 2 + f.length)).sum ≤ HCI_BUF_SIZE - 1) :
    (bkStoreAll fs s).drop = s.drop ∧
    BkInv (Q ++ fs) (bkStoreAll fs s) := by
  induction fs generalizing Q s with
  | nil =>
    simpa [bkStoreAll] using hinv
  | cons f fs ih =>
    have hstep := bk_store_spec f Q s hinv (hgood f (by simp))
      (by simp only [List.map_cons, List.sum_cons] at hfit; omega)
    obtain ⟨hdrop, hsem, hsr, hinv1⟩ := hstep
    have hjlen : (((Q ++ [f]).map bkFrame).flatten).length =
        ((Q.map bkFrame).flatten).length + (2 + f.length) := by
      rw [List.map_append, List.flatten_append, List.length_append]
      simp [bkFrame_length]
    have hrec := ih (Q ++ [f]) (hci_from_controller_cb f s).1 hinv1
      (fun g hg => hgood g (by simp [hg]))
      (by rw [hjlen]
          simp only [List.map_cons, List.sum_cons] at hfit
          omega)
    have hfold : bkStoreAll (f :: fs) s =
        bkStoreAll fs (hci_from_controller_cb f s).1 := rfl
    rw [hfold]
    refine ⟨by rw [hrec.1, hdrop], ?_⟩
    have : Q ++ f :: fs = (Q ++ [f]) ++ fs := by simp
    rw [this]
    exact hrec.2

theorem esp_storeAll_spec (fs : List (List Nat)) (Q : List (List Nat))
    (e : EspState) (hinv : EspInv Q e) (hgood : ∀ f ∈ fs, GoodFrame f)
    (hfit : ((Q.map espFrame).flatten).length +
      (fs.map (fun f => 2 + f.length)).sum ≤ RX_RING_SIZE - 1) :
    EspInv (Q ++ fs) (espStoreAll fs e) := by
  induction fs generalizing Q e with
  | nil =>
    simpa [espStoreAll] using hinv
  | cons f fs ih =>
    have hstep := esp_store_spec f Q e hinv (hgood f (by simp))
      (by simp only [List.map_cons, List.sum_cons] at hfit; omega)
    obtain ⟨hsem, hsr, hinv1⟩ := hstep
    have hjlen : (((Q ++ [f]).map espFrame).flatten).length =
        ((Q.map espFrame).flatten).length + (2 + f.length) := by
      rw [List.map_append, List.flatten_append, List.length_append]
      simp [espFrame_length]
    have hrec := ih (Q ++ [f]) (on_host_recv f e).1 hinv1
      (fun g hg => hgood g (by simp [hg]))
      (by rw [hjlen]
          simp only [List.map_cons, List.sum_cons] at hfit
          omega)
    have hfold : espStoreAll (f :: fs) e =
        espStoreAll fs (on_host_recv f e).1 := rfl
    rw [hfold]
    have : Q ++ f :: fs = (Q ++ [f]) ++ fs := by simp
    rw [this]
    exact hrec

theorem bk_recvSeq_spec (Q : List (List Nat)) (s : BkState) (max_len : Nat)
    (hinv : BkInv Q s) (hgood : ∀ f ∈ Q, GoodFrame f)
    (hmax : ∀ f ∈ Q, f.length ≤ max_len) :
    (bkRecvSeq max_len Q.length s).1 = Q ∧
    BkInv [] (bkRecvSeq max_len Q.length s).2 := by
  induction Q generalizing s with
  | nil => exact ⟨rfl, hinv⟩
  | cons f Q ih =>
    have hstep := bk_recv_spec f Q s max_len hinv
      (hgood f (by simp)).2.1 (hmax f (by simp))
    obtain ⟨hout, hdrop, hsem, hinv1⟩ := hstep
    have hrec := ih (bk_zig_ble_recv max_len s).2 hinv1
      (fun g hg => hgood g (by simp [hg]))
      (fun g hg => hmax g (by simp [hg]))
    have hfold : bkRecvSeq max_len (f :: Q).length s =
        ((bk_zig_ble_recv max_len s).1 ::
          (bkRecvSeq max_len Q.length (bk_zig_ble_recv max_len s).2).1,
         (bkRecvSeq max_len Q.length (bk_zig_ble_recv max_len s).2).2) := rfl
    rw [hfold]
    exact ⟨by rw [hout, hrec.1], hrec.2⟩

theorem esp_recvSeq_spec (Q : List (List Nat)) (e : EspState) (buf_len : Nat)
    (hinv : EspInv Q e) (hgood : ∀ f ∈ Q, GoodFrame f)
    (hmax : ∀ f ∈ Q, f.length ≤ buf_len) :
    (espRecvSeq buf_len Q.length e).1 = Q ∧
    EspInv [] (espRecvSeq buf_len Q.length e).2 := by
  induction Q generalizing e with
  | nil => exact ⟨rfl, hinv⟩
  | cons f Q ih =>
    have hstep := esp_recv_spec f Q e buf_len hinv
      (hgood f (by simp)).2.1 (hmax f (by simp))
    obtain ⟨hret, hout, hsem, hinv1⟩ := hstep
    have hrec := ih (bt_helper_recv buf_len e).2.2 hinv1
      (fun g hg => hgood g (by simp [hg]))
      (fun g hg => hmax g (by simp [hg]))
    have hfold : espRecvSeq buf_len (f :: Q).length e =
        ((bt_helper_recv buf_len e).2.1 ::
          (espRecvSeq buf_len Q.length (bt_helper_recv buf_len e).2.2).1,
         (espRecvSeq buf_len Q.length (bt_helper_recv buf_len e).2.2).2) := rfl
    rw [hfold]
    exact ⟨by rw [hout, hrec.1], hrec.2⟩

theorem bkInv_nil_used (s : BkState) (h : BkInv [] s) :
    usedAbs HCI_BUF_SIZE s.ring = 0 := by
  obtain ⟨_, _, _, hc⟩ := h
  have hl := contents_length HCI_BUF_SIZE s.ring
  rw [hc] at hl
  simpa using hl.symm

theorem espInv_nil_used (e : EspState) (h : EspInv [] e) :
    usedAbs RX_RING_SIZE e.ring = 0 := by
  obtain ⟨_, _, hc⟩ := h
  have hl := contents_length RX_RING_SIZE e.ring
  rw [hc] at hl
  simpa using hl.symm

theorem bkRecvSeq_add (max_len m n : Nat) (s : BkState) :
    bkRecvSeq max_len (m + n) s =
      ((bkRecvSeq max_len m s).1 ++
        (bkRecvSeq max_len n (bkRecvSeq max_len m s).2).1,
       (bkRecvSeq max_len n (bkRecvSeq max_len m s).2).2) := by
  induction m generalizing s with
  | zero => simp [bkRecvSeq]
  | succ m ih =>
    have hstep : m + 1 + n = (m + n) + 1 := by omega
    rw [hstep]
    show ((bk_zig_ble_recv max_len s).1 ::
        (bkRecvSeq max_len (m + n) (bk_zig_ble_recv max_len s).2).1,
      (bkRecvSeq max_len (m + n) (bk_zig_ble_recv max_len s).2).2) = _
    rw [ih (bk_zig_ble_recv max_len s).2]
    rfl

theorem espRecvSeq_add (buf_len m n : Nat) (e : EspState) :
    espRecvSeq buf_len (m + n) e =
      ((espRecvSeq buf_len m e).1 ++
        (espRecvSeq buf_len n (espRecvSeq buf_len m e).2).1,
       (espRecvSeq buf_len n (espRecvSeq buf_len m e).2).2) := by
  induction m generalizing e with
  | zero => simp [espRecvSeq]
  | succ m ih =>
    have hstep : m + 1 + n = (m + n) + 1 := by omega
    rw [hstep]
    show ((bt_helper_recv buf_len e).2.1 ::
        (espRecvSeq buf_len (m + n) (bt_helper_recv buf_len e).2.2).1,
      (espRecvSeq buf_len (m + n) (bt_helper_recv buf_len e).2.2).2) = _
    rw [ih (bt_helper_recv buf_len e).2.2]
    rfl

instance (f : List Nat) : Decidable (GoodFrame f) := by
  unfold GoodFrame
  infer_instance

/-!
Claim theorems.  Concrete module states used by witnesses and
counterexamples.
-/

/-- An initialized BK module with an empty ring. -/
def bkEmptyState : BkState where
  ring := { buf := fun _ => 0, head := 0, tail := 0 }
  sem := true
  mutex := true
  initialized := true
  drop := 0

/-- An ESP module with an empty ring. -/
def espEmptyState : EspState where
  ring := { buf := fun _ => 0, head := 0, tail := 0 }
  sem := true

/-- An initialized BK module whose ring has one free byte
(`used = 32766`, `free = 1`). -/
def bkFullState : BkState where
  ring := { buf := fun _ => 0, head := 32766, tail := 0 }
  sem := true
  mutex := true
  initialized := true
  drop := 0

/-- An ESP module whose ring has one free byte (`used = 4094`,
`free = 1`). -/
def espFullState : EspState where
  ring := { buf := fun _ => 0, head := 4094, tail := 0 }
  sem := true

/-- C10: a zero-length producer-callback invocation returns immediately in
both variants: the module state (ring, cursors, drop counter) is exactly
the one passed in, no length header is stored, and the semaphore is not
posted. -/
theorem C10_zero_length_packet_ignored (s : BkState) (e : EspState) :
    hci_from_controller_cb [] s = (s, false) ∧
    on_host_recv [] e = (e, false) := by
  constructor
  · unfold hci_from_controller_cb
    rw [if_pos (by simp)]
  · unfold on_host_recv
    rw [if_pos (by simp)]

/-- C7: `bk_zig_ble_wait_for_data` returns 1 on the fast path, without
reaching the semaphore wait, whenever `ring_used() > 0` at call time; and
when it does reach the wait (second component `true`), the result is 1
exactly when the semaphore acquisition succeeded (`ret = 0`) and the
re-checked ring is nonempty — a timeout or a spurious wake with an empty
ring yields 0, the non-error empty outcome. -/
theorem C7_wait_for_data (t : Int) (s : BkState) (ret : Int)
    (after : RingState) :
    (0 < bk_ring_used s.ring →
      bk_zig_ble_wait_for_data t s ret after = (1, false)) ∧
    ((bk_zig_ble_wait_for_data t s ret after).2 = true →
      ((bk_zig_ble_wait_for_data t s ret after).1 = 1 ↔
        (ret = 0 ∧ 0 < bk_ring_used after))) := by
  unfold bk_zig_ble_wait_for_data
  constructor
  · intro h
    rw [if_pos h]
  · split_ifs with h1 h2 h3 <;> simp_all

/-- C7 witness: with one byte in the ring the fast path fires. -/
theorem C7_wait_for_data_witness :
    bk_zig_ble_wait_for_data 100 bkFullState 0 bkFullState.ring = (1, false) :=
  (C7_wait_for_data 100 bkFullState 0 bkFullState.ring).1 (by decide)

/-- C1 counterexample, refuting the claim as stated.  (a) BK: a
zero-length callback invocation finding `free() = 1 < 2 = total_size`
returns with the module state — in particular `s_drop_count` — unchanged,
so the "increments DropCounter by exactly one" part fails.  (b) ESP: on
overflow the entire module state is returned unchanged; `EspState`
(mirroring the statics of `bt_helper.c`) has no drop-counter field at
all, so no counter can increase. -/
theorem C1_overflow_counterexample :
    bk_ring_free bkFullState.ring < 2 ∧
    hci_from_controller_cb [] bkFullState = (bkFullState, false) ∧
    bkFullState.drop = 0 ∧
    esp_ring_free espFullState.ring < 2 + 1 ∧
    on_host_recv [7] espFullState = (espFullState, false) := by
  refine ⟨by decide, rfl, rfl, by decide, rfl⟩

/-- C1 (amended): overflow handling of the producer callbacks.  BK: a
store attempt with a nonzero-length packet while initialized and
`ring_free() < 2 + len` leaves head, tail and buffer exactly as they
were, increments `s_drop_count` by exactly one and does not post the
semaphore (a zero-length invocation instead returns with no increment).
ESP: when its free-space check fails the module state is returned
unchanged and nothing is written, but this variant has no drop counter —
only a log line. -/
theorem C1_overflow_amended :
    (∀ (pkt : List Nat) (s : BkState), pkt ≠ [] → s.initialized = true →
      bk_ring_free s.ring < 2 + pkt.length →
      hci_from_controller_cb pkt s = ({ s with drop := s.drop + 1 }, false)) ∧
    (∀ (pkt : List Nat) (e : EspState), pkt ≠ [] →
      esp_ring_free e.ring < (2 + pkt.length) % 65536 →
      on_host_recv pkt e = (e, false)) := by
  constructor
  · intro pkt s hne hinit hfree
    unfold hci_from_controller_cb
    rw [if_neg (by simp [hinit, hne]), if_pos hfree]
  · intro pkt e hne hfree
    unfold on_host_recv
    rw [if_neg (by simp [hne]), if_pos hfree]

/-- C1 witness: a 10-byte packet offered to the one-free-byte rings. -/
theorem C1_overflow_amended_witness :
    hci_from_controller_cb [1, 2, 3, 4, 5, 6, 7, 8, 9, 10] bkFullState =
      ({ bkFullState with drop := bkFullState.drop + 1 }, false) ∧
    on_host_recv [1, 2, 3, 4, 5, 6, 7, 8, 9, 10] espFullState =
      (espFullState, false) :=
  ⟨C1_overflow_amended.1 [1, 2, 3, 4, 5, 6, 7, 8, 9, 10] bkFullState
      (by decide) rfl (by decide),
   C1_overflow_amended.2 [1, 2, 3, 4, 5, 6, 7, 8, 9, 10] espFullState
      (by decide) (by decide)⟩

/-- C2: round-trip.  In both variants, storing a payload `p` with
`len(p) + 2 ≤ capacity - 1` into an empty ring via the producer callback
and then receiving once with a large enough buffer yields exactly the
bytes of `p` and leaves the ring empty. -/
theorem C2_roundtrip :
    (∀ (p : List Nat) (s : BkState),
      s.ring.head = s.ring.tail → s.ring.tail < HCI_BUF_SIZE →
      s.initialized = true → (∀ b ∈ p, b < 256) →
      p.length + 2 ≤ HCI_BUF_SIZE - 1 →
      (bk_zig_ble_recv 65535 (hci_from_controller_cb p s).1).1 = p ∧
      usedAbs HCI_BUF_SIZE
        (bk_zig_ble_recv 65535 (hci_from_controller_cb p s).1).2.ring = 0) ∧
    (∀ (p : List Nat) (e : EspState),
      e.ring.head = e.ring.tail → e.ring.tail < RX_RING_SIZE →
      (∀ b ∈ p, b < 256) →
      p.length + 2 ≤ RX_RING_SIZE - 1 →
      (bt_helper_recv 65535 (on_host_recv p e).1).2.1 = p ∧
      usedAbs RX_RING_SIZE
        (bt_helper_recv 65535 (on_host_recv p e).1).2.2.ring = 0) := by
  constructor
  · intro p s hht ht hinit hbytes hfit
    have hinv0 : BkInv [] s := bkInv_nil s hht ht hinit
    by_cases hp : p = []
    · subst hp
      have hstore : hci_from_controller_cb ([] : List Nat) s = (s, false) := by
        unfold hci_from_controller_cb
        rw [if_pos (by simp)]
      rw [hstore]
      rw [bk_recv_empty s 65535 hinv0]
      exact ⟨rfl, bkInv_nil_used s hinv0⟩
    · have hgood : GoodFrame p :=
        ⟨hp, by unfold HCI_BUF_SIZE at hfit; omega, hbytes⟩
      have hst := bk_store_spec p [] s hinv0 hgood (by simp; omega)
      have hinv1 : BkInv [p] (hci_from_controller_cb p s).1 := by
        simpa using hst.2.2.2
      have hrc := bk_recv_spec p [] (hci_from_controller_cb p s).1 65535 hinv1
        (by unfold HCI_BUF_SIZE at hfit; omega)
        (by unfold HCI_BUF_SIZE at hfit; omega)
      exact ⟨hrc.1, bkInv_nil_used _ hrc.2.2.2⟩
  · intro p e hht ht hbytes hfit
    have hinv0 : EspInv [] e := espInv_nil e hht ht
    by_cases hp : p = []
    · subst hp
      have hstore : on_host_recv ([] : List Nat) e = (e, false) := by
        unfold on_host_recv
        rw [if_pos (by simp)]
      rw [hstore]
      rw [esp_recv_empty e 65535 hinv0]
      exact ⟨rfl, espInv_nil_used e hinv0⟩
    · have hgood : GoodFrame p :=
        ⟨hp, by unfold RX_RING_SIZE at hfit; omega, hbytes⟩
      have hst := esp_store_spec p [] e hinv0 hgood (by simp; omega)
      have hinv1 : EspInv [p] (on_host_recv p e).1 := by
        simpa using hst.2.2
      have hrc := esp_recv_spec p [] (on_host_recv p e).1 65535 hinv1
        (by unfold RX_RING_SIZE at hfit; omega)
        (by unfold RX_RING_SIZE at hfit; omega)
      exact ⟨hrc.2.1, espInv_nil_used _ hrc.2.2.2⟩

/-- C2 witness: the 5-byte payload `"HELLO"` round-trips through both
variants. -/
theorem C2_roundtrip_witness :
    (bk_zig_ble_recv 65535
      (hci_from_controller_cb [72, 69, 76, 76, 79] bkEmptyState).1).1 =
      [72, 69, 76, 76, 79] ∧
    (bt_helper_recv 65535
      (on_host_recv [72, 69, 76, 76, 79] espEmptyState).1).2.1 =
      [72, 69, 76, 76, 79] :=
  ⟨(C2_roundtrip.1 [72, 69, 76, 76, 79] bkEmptyState rfl (by decide) rfl
      (by decide) (by decide)).1,
   (C2_roundtrip.2 [72, 69, 76, 76, 79] espEmptyState rfl (by decide)
      (by decide) (by decide)).1⟩

/-- C3: FIFO.  In both variants, storing frames `f1 … fn` (nonempty
packets, as zero-length packets are not stored at all) whose framed sizes
fit together in the usable capacity, and then issuing `n + 1` receive
calls with large buffers, returns exactly `f1, …, fn` in store order —
one frame per call — followed by the empty result. -/
theorem C3_fifo :
    (∀ (fs : List (List Nat)) (s : BkState),
      s.ring.head = s.ring.tail → s.ring.tail < HCI_BUF_SIZE →
      s.initialized = true → (∀ f ∈ fs, GoodFrame f) →
      (fs.map (fun f => 2 + f.length)).sum ≤ HCI_BUF_SIZE - 1 →
      (bkRecvSeq 65535 (fs.length + 1) (bkStoreAll fs s)).1 = fs ++ [[]]) ∧
    (∀ (fs : List (List Nat)) (e : EspState),
      e.ring.head = e.ring.tail → e.ring.tail < RX_RING_SIZE →
      (∀ f ∈ fs, GoodFrame f) →
      (fs.map (fun f => 2 + f.length)).sum ≤ RX_RING_SIZE - 1 →
      (espRecvSeq 65535 (fs.length + 1) (espStoreAll fs e)).1 = fs ++ [[]]) := by
  constructor
  · intro fs s hht ht hinit hgood hsum
    have hinv0 : BkInv [] s := bkInv_nil s hht ht hinit
    have hsa := bk_storeAll_spec fs [] s hinv0 hgood
      (by simp only [List.map_nil, List.flatten_nil, List.length_nil]; omega)
    have hinv1 : BkInv fs (bkStoreAll fs s) := by simpa using hsa.2
    have hmax : ∀ f ∈ fs, f.length ≤ 65535 := fun f hf => by
      have := (hgood f hf).2.1
      omega
    have hrs := bk_recvSeq_spec fs (bkStoreAll fs s) 65535 hinv1 hgood hmax
    have hfin := bk_recv_empty
      (bkRecvSeq 65535 fs.length (bkStoreAll fs s)).2 65535 hrs.2
    have hfst : (bkRecvSeq 65535 (fs.length + 1) (bkStoreAll fs s)).1 =
        (bkRecvSeq 65535 fs.length (bkStoreAll fs s)).1 ++
        (bkRecvSeq 65535 1
          (bkRecvSeq 65535 fs.length (bkStoreAll fs s)).2).1 := by
      rw [bkRecvSeq_add 65535 fs.length 1 (bkStoreAll fs s)]
    have hone : (bkRecvSeq 65535 1
        (bkRecvSeq 65535 fs.length (bkStoreAll fs s)).2).1 =
        [(bk_zig_ble_recv 65535
          (bkRecvSeq 65535 fs.length (bkStoreAll fs s)).2).1] := rfl
    rw [hfst, hrs.1, hone, hfin]
  · intro fs e hht ht hgood hsum
    have hinv0 : EspInv [] e := espInv_nil e hht ht
    have hsa := esp_storeAll_spec fs [] e hinv0 hgood
      (by simp only [List.map_nil, List.flatten_nil, List.length_nil]; omega)
    have hinv1 : EspInv fs (espStoreAll fs e) := by simpa using hsa
    have hmax : ∀ f ∈ fs, f.length ≤ 65535 := fun f hf => by
      have := (hgood f hf).2.1
      omega
    have hrs := esp_recvSeq_spec fs (espStoreAll fs e) 65535 hinv1 hgood hmax
    have hfin := esp_recv_empty
      (espRecvSeq 65535 fs.length (espStoreAll fs e)).2 65535 hrs.2
    have hfst : (espRecvSeq 65535 (fs.length + 1) (espStoreAll fs e)).1 =
        (espRecvSeq 65535 fs.length (espStoreAll fs e)).1 ++
        (espRecvSeq 65535 1
          (espRecvSeq 65535 fs.length (espStoreAll fs e)).2).1 := by
      rw [espRecvSeq_add 65535 fs.length 1 (espStoreAll fs e)]
    have hone : (espRecvSeq 65535 1
        (espRecvSeq 65535 fs.length (espStoreAll fs e)).2).1 =
        [(bt_helper_recv 65535
          (espRecvSeq 65535 fs.length (espStoreAll fs e)).2).2.1] := rfl
    rw [hfst, hrs.1, hone, hfin]

/-- C3 witness: frames of 3 and 4 payload bytes (framed total
`2+3+2+4 = 11` bytes) come back in order, then the empty result. -/
theorem C3_fifo_witness :
    (bkRecvSeq 65535 3
      (bkStoreAll [[1, 2, 3], [4, 5, 6, 7]] bkEmptyState)).1 =
      [[1, 2, 3], [4, 5, 6, 7], []] ∧
    (espRecvSeq 65535 3
      (espStoreAll [[1, 2, 3], [4, 5, 6, 7]] espEmptyState)).1 =
      [[1, 2, 3], [4, 5, 6, 7], []] := by
  constructor
  · have h := C3_fifo.1 [[1, 2, 3], [4, 5, 6, 7]] bkEmptyState rfl (by decide)
      rfl (by decide) (by decide)
    simpa using h
  · have h := C3_fifo.2 [[1, 2, 3], [4, 5, 6, 7]] espEmptyState rfl (by decide)
      (by decide) (by decide)
    simpa using h

instance (Q : List (List Nat)) (e : EspState) : Decidable (EspInv Q e) := by
  unfold EspInv
  infer_instance

instance (Q : List (List Nat)) (s : BkState) : Decidable (BkInv Q s) := by
  unfold BkInv
  infer_instance

/-- ESP `bt_helper_recv` when the stored frame exceeds the caller's
buffer: the frame (header and payload) is discarded and `-1` is
returned. -/
theorem esp_recv_toolarge (f : List Nat) (Q : List (List Nat)) (e : EspState)
    (buf_len : Nat) (hinv : EspInv (f :: Q) e)
    (hlen : f.length < 65536) (hmax : buf_len < f.length) :
    (bt_helper_recv buf_len e).1 = -1 ∧
    (bt_helper_recv buf_len e).2.1 = [] ∧
    EspInv Q (bt_helper_recv buf_len e).2.2 := by
  obtain ⟨hh, ht, hcont⟩ := hinv
  have hNpos : (0 : Nat) < RX_RING_SIZE := by unfold RX_RING_SIZE; omega
  have hcont' : contents RX_RING_SIZE e.ring =
      esp_hdr f.length ++ (f ++ (Q.map espFrame).flatten) := by
    rw [hcont]
    simp [espFrame, List.append_assoc]
  have hulen : usedAbs RX_RING_SIZE e.ring =
      2 + (f.length + (Q.map espFrame).flatten.length) := by
    have hl := contents_length RX_RING_SIZE e.ring
    rw [hcont', List.length_append, List.length_append] at hl
    have hbl : (esp_hdr f.length).length = 2 := rfl
    omega
  have hult : usedAbs RX_RING_SIZE e.ring < RX_RING_SIZE :=
    usedAbs_lt _ _ hNpos
  have hLsmall : f.length + 2 < RX_RING_SIZE := by omega
  have huge := esp_used_ge e.ring hh ht
  have hcond1 : ¬(esp_ring_used e.ring < 2) := by omega
  have hpeek : esp_ring_peek 2 e.ring = esp_hdr f.length := by
    unfold esp_ring_peek
    rw [peekLoop_eq RX_RING_SIZE 2 e.ring.tail e.ring.buf ht]
    have htk := contents_take RX_RING_SIZE e.ring 2 (by omega)
    rw [← htk, hcont']
    exact List.take_left' (by simp [esp_hdr])
  have hdecode : (esp_ring_peek 2 e.ring).getD 0 0 +
      (esp_ring_peek 2 e.ring).getD 1 0 * 256 = f.length := by
    rw [hpeek]
    simp [esp_hdr]
    omega
  have hsmall : (2 + f.length) % 65536 = 2 + f.length :=
    Nat.mod_eq_of_lt (by unfold RX_RING_SIZE at hLsmall; omega)
  have hcond2 : ¬(esp_ring_used e.ring <
      (2 + ((esp_ring_peek 2 e.ring).getD 0 0 +
        (esp_ring_peek 2 e.ring).getD 1 0 * 256)) % 65536) := by
    rw [hdecode, hsmall]
    omega
  have hcond3 : buf_len < (esp_ring_peek 2 e.ring).getD 0 0 +
      (esp_ring_peek 2 e.ring).getD 1 0 * 256 := by
    rw [hdecode]
    omega
  have heval : bt_helper_recv buf_len e =
      (-1, [], { e with ring := esp_ring_skip ((2 + f.length) % 65536) e.ring }) := by
    unfold bt_helper_recv
    rw [if_neg hcond1, if_neg hcond2, if_pos hcond3, hdecode]
  rw [heval]
  refine ⟨rfl, rfl, hh, ?_, ?_⟩
  · show ((e.ring.tail + (2 + f.length) % 65536) % RX_RING_SIZE) < RX_RING_SIZE
    exact Nat.mod_lt _ hNpos
  · show contents RX_RING_SIZE
        { e.ring with tail :=
          (e.ring.tail + (2 + f.length) % 65536) % RX_RING_SIZE } =
      (Q.map espFrame).flatten
    rw [hsmall]
    have hdc := advance_tail_contents RX_RING_SIZE e.ring (2 + f.length) hh ht
      (by omega)
    rw [hdc]
    have hcont2 : contents RX_RING_SIZE e.ring =
        (esp_hdr f.length ++ f) ++ (Q.map espFrame).flatten := by
      rw [hcont']
      simp [List.append_assoc]
    rw [hcont2]
    exact List.drop_left'
      (by simp only [List.length_append, esp_hdr, List.length_cons,
            List.length_nil])

/-- BK `bk_zig_ble_recv` when the stored frame exceeds the caller's
buffer: `tail` is restored, the frame is retained, and the empty result
is returned — the module state is exactly the input state. -/
theorem bk_recv_toolarge (f : List Nat) (Q : List (List Nat)) (s : BkState)
    (max_len : Nat) (hinv : BkInv (f :: Q) s)
    (hlen : f.length < 65536) (hmax : max_len < f.length) :
    bk_zig_ble_recv max_len s = ([], s) := by
  obtain ⟨hh, ht, hinit, hcont⟩ := hinv
  have hN : (0 : Nat) < HCI_BUF_SIZE := by unfold HCI_BUF_SIZE; omega
  have hcont' : contents HCI_BUF_SIZE s.ring =
      bk_hdr f.length ++ (f ++ (Q.map bkFrame).flatten) := by
    rw [hcont]
    simp [bkFrame, List.append_assoc]
  have hulen : usedAbs HCI_BUF_SIZE s.ring =
      2 + (f.length + (Q.map bkFrame).flatten.length) := by
    have hl := contents_length HCI_BUF_SIZE s.ring
    rw [hcont', List.length_append, List.length_append] at hl
    have hbl : (bk_hdr f.length).length = 2 := rfl
    omega
  have hused_eq := bk_used_eq s.ring hh ht
  have hcond1 : ¬(bk_ring_used s.ring < 2) := by
    rw [hused_eq]
    omega
  have hmin1 : min (bk_ring_used s.ring) 2 = 2 := by
    rw [hused_eq]
    omega
  have hread2 : bk_ring_read 2 s.ring = readLoop HCI_BUF_SIZE 2 s.ring := by
    unfold bk_ring_read
    rw [hmin1]
  have hr := readLoop_spec HCI_BUF_SIZE 2 s.ring hh ht (by omega)
  obtain ⟨hr1, hrbuf, hrhead, hrtail, hru, hrc⟩ := hr
  have htake2 : (contents HCI_BUF_SIZE s.ring).take 2 = bk_hdr f.length := by
    rw [hcont']
    exact List.take_left' (by simp [bk_hdr])
  have hdecode : (readLoop HCI_BUF_SIZE 2 s.ring).1.getD 0 0 * 256 +
      (readLoop HCI_BUF_SIZE 2 s.ring).1.getD 1 0 = f.length := by
    rw [hr1, htake2]
    simp [bk_hdr]
    omega
  have hcond2 : max_len <
      ((readLoop HCI_BUF_SIZE 2 s.ring).1.getD 0 0 * 256 +
        (readLoop HCI_BUF_SIZE 2 s.ring).1.getD 1 0) ∨
      bk_ring_used (readLoop HCI_BUF_SIZE 2 s.ring).2 <
      ((readLoop HCI_BUF_SIZE 2 s.ring).1.getD 0 0 * 256 +
        (readLoop HCI_BUF_SIZE 2 s.ring).1.getD 1 0) := by
    left
    rw [hdecode]
    exact hmax
  unfold bk_zig_ble_recv
  rw [if_neg hcond1]
  simp only [hread2]
  rw [if_pos hcond2, readLoop_eq HCI_BUF_SIZE 2 s.ring ht]

/-- BK module holding one stored 3-byte frame `[10, 11, 12]`
(big-endian header `[0, 3]`). -/
def bkC4State : BkState where
  ring := { buf := fun j => [0, 3, 10, 11, 12].getD j 0, head := 5, tail := 0 }
  sem := true
  mutex := true
  initialized := true
  drop := 0

/-- ESP module holding one stored 3-byte frame `[9, 9, 9]`
(little-endian header `[3, 0]`). -/
def espC4State : EspState where
  ring := { buf := fun j => [3, 0, 9, 9, 9].getD j 0, head := 5, tail := 0 }
  sem := true

/-- C4 counterexample, refuting the claim as stated: in the BK variant a
complete 3-byte frame is present (`used = 5`) and the caller's buffer
holds only 1 byte, yet `bk_zig_ble_recv` returns the empty result with
the module state — `tail` included — exactly unchanged.  The frame is
retained rather than discarded, and the caller cannot tell this from an
empty ring. -/
theorem C4_toolarge_counterexample :
    bk_ring_used bkC4State.ring = 5 ∧
    bk_zig_ble_recv 1 bkC4State = ([], bkC4State) :=
  ⟨by decide, by rfl⟩

/-- C4 (amended): oversized-frame handling differs between the variants.
ESP: the stored frame (header and payload) is discarded — `tail` advances
past it — and `-1` is returned, distinct from the `0` of the empty case.
BK: `tail` is restored and the empty result is returned; the frame is
retained and the outcome is indistinguishable from an empty ring. -/
theorem C4_toolarge_amended :
    (∀ (f : List Nat) (Q : List (List Nat)) (e : EspState) (buf_len : Nat),
      EspInv (f :: Q) e → f.length < 65536 → buf_len < f.length →
      (bt_helper_recv buf_len e).1 = -1 ∧
      (bt_helper_recv buf_len e).2.1 = [] ∧
      EspInv Q (bt_helper_recv buf_len e).2.2 ∧
      (-1 : Int) ≠ 0) ∧
    (∀ (f : List Nat) (Q : List (List Nat)) (s : BkState) (max_len : Nat),
      BkInv (f :: Q) s → f.length < 65536 → max_len < f.length →
      bk_zig_ble_recv max_len s = ([], s)) := by
  constructor
  · intro f Q e buf_len hinv hlen hmax
    have h := esp_recv_toolarge f Q e buf_len hinv hlen hmax
    exact ⟨h.1, h.2.1, h.2.2, by decide⟩
  · intro f Q s max_len hinv hlen hmax
    exact bk_recv_toolarge f Q s max_len hinv hlen hmax

/-- C4 witness: the concrete one-frame modules with a 1-byte caller
buffer. -/
theorem C4_toolarge_amended_witness :
    (bt_helper_recv 1 espC4State).1 = -1 ∧
    bk_zig_ble_recv 1 bkC4State = ([], bkC4State) :=
  ⟨(C4_toolarge_amended.1 [9, 9, 9] [] espC4State 1 (by decide) (by decide)
      (by decide)).1,
   C4_toolarge_amended.2 [10, 11, 12] [] bkC4State 1 (by decide) (by decide)
      (by decide)⟩

set_option maxRecDepth 40000 in
/-- C5 counterexample, refuting "little-endian in every observed
variant": storing a 258-byte packet in the BK variant puts `1` (the high
byte of the length) in the first prefix cell and `2` (the low byte) in
the second — `[len_hi][len_lo]`, not `[len_lo][len_hi]`. -/
theorem C5_endianness_counterexample :
    (hci_from_controller_cb (List.replicate 258 7) bkEmptyState).1.ring.buf 0 = 1 ∧
    (hci_from_controller_cb (List.replicate 258 7) bkEmptyState).1.ring.buf 1 = 2 ∧
    258 % 256 = 2 ∧ (1 : Nat) ≠ 258 % 256 := by
  refine ⟨by rfl, by rfl, by rfl, by decide⟩

/-- C5 (amended): the 2-byte length prefix is little-endian in the ESP
variant (`[len & 0xFF][len >> 8]`) but big-endian in the BK variant
(`[len >> 8][len & 0xFF]`): after a successful store the ring holds,
after the previously queued frames, exactly the listed header bytes
followed by the payload. -/
theorem C5_endianness_amended :
    (∀ (p : List Nat) (e : EspState) (Q : List (List Nat)),
      EspInv Q e → GoodFrame p →
      ((Q.map espFrame).flatten).length + 2 + p.length ≤ RX_RING_SIZE - 1 →
      contents RX_RING_SIZE (on_host_recv p e).1.ring =
        (Q.map espFrame).flatten ++
          ([p.length % 256, p.length / 256 % 256] ++ p)) ∧
    (∀ (p : List Nat) (s : BkState) (Q : List (List Nat)),
      BkInv Q s → GoodFrame p →
      ((Q.map bkFrame).flatten).length + 2 + p.length ≤ HCI_BUF_SIZE - 1 →
      contents HCI_BUF_SIZE (hci_from_controller_cb p s).1.ring =
        (Q.map bkFrame).flatten ++
          ([p.length / 256 % 256, p.length % 256] ++ p)) := by
  constructor
  · intro p e Q hinv hgood hfit
    have hst := esp_store_spec p Q e hinv hgood hfit
    obtain ⟨-, -, hE⟩ := hst
    obtain ⟨-, -, hcE⟩ := hE
    rw [hcE]
    simp [List.map_append, List.flatten_append, espFrame, esp_hdr]
  · intro p s Q hinv hgood hfit
    have hst := bk_store_spec p Q s hinv hgood hfit
    obtain ⟨-, -, -, hB⟩ := hst
    obtain ⟨-, -, -, hcB⟩ := hB
    rw [hcB]
    simp [List.map_append, List.flatten_append, bkFrame, bk_hdr]

/-- C5 witness: a 3-byte payload stored into both empty modules. -/
theorem C5_endianness_amended_witness :
    contents RX_RING_SIZE (on_host_recv [5, 6, 7] espEmptyState).1.ring =
      [3, 0] ++ [5, 6, 7] ∧
    contents HCI_BUF_SIZE
      (hci_from_controller_cb [5, 6, 7] bkEmptyState).1.ring =
      [0, 3] ++ [5, 6, 7] := by
  constructor
  · have h := C5_endianness_amended.1 [5, 6, 7] espEmptyState []
      (by decide) (by decide) (by decide)
    simpa using h
  · have h := C5_endianness_amended.2 [5, 6, 7] bkEmptyState []
      (by decide) (by decide) (by decide)
    simpa using h

/-- A BK module that has been shut down: the state produced after the
module was once running and `bk_zig_ble_deinit` completed (cursors reset;
semaphore, mutex and the initialized flag cleared). -/
def bkDeadState : BkState where
  ring := { buf := fun _ => 0, head := 0, tail := 0 }
  sem := false
  mutex := false
  initialized := false
  drop := 0

/-- C6 counterexample, refuting the claim as stated: on a deinitialized
BK module, `bk_zig_ble_send_cmd` still forwards the command over IPC and
returns `0` — the success status; `bk_zig_ble_recv` returns `0` bytes —
the same value as the empty case; `bk_zig_ble_wait_for_data` returns `0`
— the same value as a timeout.  No operation yields a distinct
Uninitialized/Deinitialized status. -/
theorem C6_uninit_counterexample :
    bkDeadState.initialized = false ∧
    bk_zig_ble_send_cmd [1, 2, 0] bkDeadState = (0, true) ∧
    bk_zig_ble_recv 64 bkDeadState = ([], bkDeadState) ∧
    bk_zig_ble_wait_for_data 10 bkDeadState 0 bkDeadState.ring = (0, false) ∧
    bk_zig_ble_can_send bkDeadState = 0 :=
  ⟨rfl, rfl, rfl, rfl, rfl⟩

/-- C6 (amended): operations invoked outside the Running state do not
fail with a distinct error.  After `bk_zig_ble_deinit`, `bk_zig_ble_recv`
returns the empty result and `bk_zig_ble_wait_for_data` returns `0`,
exactly as for an empty ring or a timeout; `bk_zig_ble_send_cmd` never
consults the module state at all and reports success for any well-formed
command; and ESP `bt_helper_recv` behaves identically before and after
`bt_helper_deinit` (only the producer callbacks check a lifecycle
flag). -/
theorem C6_uninit_amended :
    (∀ (s : BkState) (max_len : Nat), s.initialized = true →
      bk_zig_ble_recv max_len (bk_zig_ble_deinit s) =
        ([], bk_zig_ble_deinit s)) ∧
    (∀ (s : BkState) (t ret : Int) (r : RingState), s.initialized = true →
      bk_zig_ble_wait_for_data t (bk_zig_ble_deinit s) ret r = (0, false)) ∧
    (∀ (buf : List Nat) (s1 s2 : BkState),
      bk_zig_ble_send_cmd buf s1 = bk_zig_ble_send_cmd buf s2) ∧
    (∀ (buf : List Nat) (s : BkState), 3 ≤ buf.length →
      bk_zig_ble_send_cmd buf s = (0, true)) ∧
    (∀ (e : EspState) (buf_len : Nat),
      (bt_helper_recv buf_len (bt_helper_deinit e)).1 =
        (bt_helper_recv buf_len e).1 ∧
      (bt_helper_recv buf_len (bt_helper_deinit e)).2.1 =
        (bt_helper_recv buf_len e).2.1) := by
  have hdead : ∀ s : BkState, s.initialized = true →
      bk_zig_ble_deinit s =
        { ring := { buf := s.ring.buf, head := 0, tail := 0 }
          sem := false, mutex := false, initialized := false
          drop := s.drop } := by
    intro s hs
    unfold bk_zig_ble_deinit
    rw [if_neg (by simp [hs])]
  refine ⟨?_, ?_, ?_, ?_, ?_⟩
  · intro s max_len hs
    rw [hdead s hs]
    unfold bk_zig_ble_recv
    rw [if_pos ?_]
    show bk_ring_used { buf := s.ring.buf, head := 0, tail := 0 } < 2
    show ((0 + 4294967296 - 0) % 4294967296 + HCI_BUF_SIZE) % 4294967296 %
      HCI_BUF_SIZE < 2
    unfold HCI_BUF_SIZE
    omega
  · intro s t ret r hs
    rw [hdead s hs]
    unfold bk_zig_ble_wait_for_data
    rw [if_neg ?_, if_pos rfl]
    show ¬(0 < bk_ring_used { buf := s.ring.buf, head := 0, tail := 0 })
    show ¬(0 < ((0 + 4294967296 - 0) % 4294967296 + HCI_BUF_SIZE) %
      4294967296 % HCI_BUF_SIZE)
    unfold HCI_BUF_SIZE
    omega
  · intro buf s1 s2
    rfl
  · intro buf s hlen
    unfold bk_zig_ble_send_cmd
    rw [if_neg (by omega)]
  · intro e buf_len
    obtain ⟨ring, sem⟩ := e
    unfold bt_helper_deinit bt_helper_recv
    dsimp only
    split_ifs <;> exact ⟨rfl, rfl⟩

/-- C6 witness: the shutdown of an initialized empty module. -/
theorem C6_uninit_amended_witness :
    bk_zig_ble_recv 64 (bk_zig_ble_deinit bkEmptyState) =
      ([], bk_zig_ble_deinit bkEmptyState) ∧
    bk_zig_ble_send_cmd [1, 2, 0] bkDeadState = (0, true) :=
  ⟨C6_uninit_amended.1 bkEmptyState 64 rfl,
   C6_uninit_amended.2.2.2.1 [1, 2, 0] bkDeadState (by decide)⟩

/-- The ESP ring with wrapped cursors: `rx_head = 0`, `rx_tail = 4000`,
i.e. 96 bytes actually in flight. -/
def espWrappedRing : RingState where
  buf := fun _ => 0
  head := 0
  tail := 4000

/-- C8: the ESP `ring_used` does not compute `(head - tail + N) mod N`.
At `head = 0`, `tail = 4000` (96 bytes in flight after the ring wrapped),
the intended formula gives 96 used and 3999 free, but the C code — whose
`uint16_t` operands promote to `int`, so the truncating `%` yields a
negative value that the final `uint16_t` cast wraps — returns 61536 used
and 8095 free.  `ring_free` thus over-reports free space by 4096, more
than the whole 4 KiB buffer, so subsequent `ring_write` calls can accept
data that overwrites unread bytes.  (The BK variant, computing in
`uint32_t` with `+ N` inside the modulus, is correct: see
`bk_used_eq`.) -/
theorem C8_esp_used_promotion_bug :
    esp_ring_used espWrappedRing = 61536 ∧
    usedAbs RX_RING_SIZE espWrappedRing = 96 ∧
    esp_ring_free espWrappedRing = 8095 ∧
    RX_RING_SIZE - 1 - usedAbs RX_RING_SIZE espWrappedRing = 3999 := by
  refine ⟨by decide, by decide, by decide, by decide⟩

/-- A BK module with nonzero cursors, a nonzero buffer byte and a
nonzero drop count. -/
def bkDirtyState : BkState where
  ring := { buf := fun j => if j = 3 then 7 else 0, head := 5, tail := 2 }
  sem := true
  mutex := true
  initialized := true
  drop := 4

/-- An ESP module with nonzero cursors and a nonzero buffer byte. -/
def espDirtyState : EspState where
  ring := { buf := fun j => if j = 3 then 7 else 0, head := 5, tail := 2 }
  sem := true

/-- C9 counterexample, refuting "after deinit … every byte of the buffer
is 0": BK `bk_zig_ble_deinit` resets the cursors but leaves buffer byte 3
at 7; ESP `bt_helper_deinit` does not even reset the cursors (head stays
5) and also leaves the buffer bytes. -/
theorem C9_zeroing_counterexample :
    (bk_zig_ble_deinit bkDirtyState).ring.head = 0 ∧
    (bk_zig_ble_deinit bkDirtyState).ring.buf 3 = 7 ∧
    (bt_helper_deinit espDirtyState).ring.head = 5 ∧
    (bt_helper_deinit espDirtyState).ring.buf 3 = 7 ∧
    (7 : Nat) ≠ 0 ∧ (5 : Nat) ≠ 0 :=
  ⟨rfl, rfl, rfl, rfl, by decide, by decide⟩

/-- C9 (amended): the lifecycle functions reset cursors but never clear
buffer bytes.  BK deinit (from Running) sets `head = tail = 0`, keeps the
buffer contents and the drop counter; BK init does not touch the ring at
all.  ESP init (success path) sets `head = tail = 0` and keeps the
buffer; ESP deinit leaves the whole ring — cursors and bytes —
untouched. -/
theorem C9_zeroing_amended :
    (∀ s : BkState, s.initialized = true →
      (bk_zig_ble_deinit s).ring.head = 0 ∧
      (bk_zig_ble_deinit s).ring.tail = 0 ∧
      (bk_zig_ble_deinit s).ring.buf = s.ring.buf ∧
      (bk_zig_ble_deinit s).drop = s.drop) ∧
    (∀ s : BkState, (bk_zig_ble_init s).1.ring = s.ring) ∧
    (∀ e : EspState,
      (bt_helper_init e).ring.head = 0 ∧
      (bt_helper_init e).ring.tail = 0 ∧
      (bt_helper_init e).ring.buf = e.ring.buf ∧
      bt_helper_deinit e = { ring := e.ring, sem := false }) := by
  refine ⟨?_, ?_, ?_⟩
  · intro s hs
    have hd : bk_zig_ble_deinit s =
        { ring := { buf := s.ring.buf, head := 0, tail := 0 }
          sem := false, mutex := false, initialized := false
          drop := s.drop } := by
      unfold bk_zig_ble_deinit
      rw [if_neg (by simp [hs])]
    rw [hd]
    exact ⟨rfl, rfl, rfl, rfl⟩
  · intro s
    unfold bk_zig_ble_init
    split_ifs <;> rfl
  · intro e
    exact ⟨rfl, rfl, rfl, rfl⟩

/-- C9 witness: the dirty states above. -/
theorem C9_zeroing_amended_witness :
    (bk_zig_ble_deinit bkDirtyState).ring.head = 0 ∧
    (bk_zig_ble_deinit bkDirtyState).ring.tail = 0 ∧
    (bk_zig_ble_deinit bkDirtyState).drop = 4 :=
  ⟨(C9_zeroing_amended.1 bkDirtyState rfl).1,
   (C9_zeroing_amended.1 bkDirtyState rfl).2.1,
   (C9_zeroing_amended.1 bkDirtyState rfl).2.2.2⟩
